import Mathlib

/-!
Verification development for the `script-runner` repository.

The definitions below are a shallow embedding of `src/runner.js`
(class `ScriptRunner` and its helpers).  Pure computations (exit
classification, log-chunk clamping, request validation, job-store
recovery, log paging) are translated to Lean functions; the stateful
scheduler/executor core is translated to an explicit state type
`Runner.RState` together with a deterministic event-application
function and an inductive reachability relation.  Timestamps are
abstracted to natural numbers (each event carries the clock value that
`nowIso()` / `Date.now()` would observe); log bytes are abstracted to
their counts where only counts matter, and to `List Nat` byte lists
where content matters.
-/

namespace Runner

/-- Job status, `STATUS` in `src/runner.js` lines 5-12. -/
inductive Status where
  | queued
  | running
  | succeeded
  | failed
  | timed_out
  | canceled
deriving DecidableEq, Repr

/-- Terminal statuses, as enumerated by the early return of `cancelJob`
(`src/runner.js` lines 556-563). -/
def Status.isTerminal : Status → Bool
  | .succeeded => true
  | .failed => true
  | .timed_out => true
  | .canceled => true
  | .queued => false
  | .running => false

/-- Execution mode of a job (`sync` / `async`). -/
inductive Mode where
  | sync
  | async
deriving DecidableEq, Repr

/-- Error codes returned by runner operations. -/
inductive ErrCode where
  | SCRIPT_NOT_FOUND
  | INVALID_ARGS
  | JOB_NOT_FOUND
deriving DecidableEq, Repr

/-- A JavaScript value passed as one element of `args`: either a string
or some non-string value (`typeof value !== "string"` in
`validateRequest`, `src/runner.js` line 174). -/
inductive ArgVal where
  | str (s : String)
  | other
deriving DecidableEq, Repr

/-- Per-script argument constraints (`script.args` in the config). -/
structure ArgSpec where
  maxItems : Nat
  itemMaxLength : Nat
  /-- The compiled `itemPattern` regular expression, abstracted to its
  acceptance function (`new RegExp(script.args.itemPattern).test`). -/
  itemPattern : String → Bool

/-- A script registry entry. -/
structure Script where
  id : Nat
  mode : Option Mode
  timeoutSec : Nat
  argSpec : ArgSpec

/-- Runner configuration as read by the `ScriptRunner` constructor. -/
structure Config where
  maxConcurrent : Nat
  defaultMode : Mode
  scripts : List Script

/-- Terminal-status decision of the child `close` handler,
`src/runner.js` lines 392-410.  `signal` is the truthiness of the
`signal` argument; `code` is `null` (`none`) or the numeric exit code. -/
def classifyExit (timedOut cancelRequested signal : Bool) (code : Option Int) :
    Status × Int :=
  if timedOut then (.timed_out, -1)
  else if cancelRequested then (.canceled, -1)
  else if signal then (.failed, -1)
  else if code = some 0 then (.succeeded, 0)
  else (.failed, code.getD (-1))

/-- Effective per-stream log cap computed by the constructor:
`config.runner.maxLogBytesPerStream || 1024 * 1024`
(`src/runner.js` line 63).  `none` models an absent (undefined) config
value; note that the JavaScript `||` also replaces a configured `0`. -/
def effectiveMaxLogBytes (v : Option Nat) : Nat :=
  match v with
  | none => 1024 * 1024
  | some n => if n = 0 then 1024 * 1024 else n

/-- One step of `writeLogChunk` (`src/runner.js` lines 306-321),
tracking only the byte count of the chunk.  The state is
`(job[sizeKey], job[truncatedKey])`. -/
def writeLogChunk (cap : Nat) (st : Nat × Bool) (chunkLen : Nat) : Nat × Bool :=
  let size := st.1
  let trunc := st.2
  if cap ≤ size then (size, true)
  else
    let allowed := cap - size
    let toWrite := min chunkLen allowed
    (size + toWrite, trunc || decide (toWrite < chunkLen))

/-- Folding `writeLogChunk` over the chunk sizes delivered on one
stream, starting from a fresh job (`stdoutSize = 0`,
`stdoutTruncated = false`). -/
def processChunks (cap : Nat) (chunks : List Nat) : Nat × Bool :=
  chunks.foldl (writeLogChunk cap) (0, false)

/-- The serialized form of a job, i.e. the fields written by
`serializeJobForStore` / `serializeJob` (`src/runner.js` lines 105-125
and 444-464; previews are log metadata and are abstracted away).
Job ids are abstracted to naturals; timestamps to naturals. -/
structure StoredJob where
  jobId : Nat
  scriptId : Nat
  status : Status
  code : Option Int
  startedAt : Option Nat
  endedAt : Option Nat
  durationMs : Option Nat
  createdAt : Nat
  mode : Mode
  stdoutRef : Option String
  stderrRef : Option String
  stdoutSize : Nat
  stderrSize : Nat
  stdoutTruncated : Bool
  stderrTruncated : Bool
deriving DecidableEq, Repr

/-- An in-memory job record (`createJob`, `src/runner.js` lines
195-221), extended with the per-execution supervisor flags that the
source keeps as local variables of `executeJob` (`timedOut`,
`finished`, lines 288-289) and the presence of a spawned child
(`job._child`, line 412). -/
structure Job where
  jobId : Nat
  scriptId : Nat
  mode : Mode
  args : List String
  status : Status
  code : Option Int
  startedAt : Option Nat
  endedAt : Option Nat
  durationMs : Option Nat
  createdAt : Nat
  cancelRequested : Bool
  timedOut : Bool
  hasChild : Bool
  finished : Bool
  stdoutRef : Option String
  stderrRef : Option String
  stdoutSize : Nat
  stderrSize : Nat
  stdoutTruncated : Bool
  stderrTruncated : Bool
deriving DecidableEq, Repr

/-- `serializeJob` / `serializeJobForStore`: the externally visible
snapshot of a job. -/
def serializeJob (j : Job) : StoredJob :=
  { jobId := j.jobId, scriptId := j.scriptId, status := j.status, code := j.code,
    startedAt := j.startedAt, endedAt := j.endedAt, durationMs := j.durationMs,
    createdAt := j.createdAt, mode := j.mode,
    stdoutRef := j.stdoutRef, stderrRef := j.stderrRef,
    stdoutSize := j.stdoutSize, stderrSize := j.stderrSize,
    stdoutTruncated := j.stdoutTruncated, stderrTruncated := j.stderrTruncated }

/-- `persistJobs` (`src/runner.js` lines 127-139): the content written
to the job-store file. -/
def persistList (jobs : List Job) : List StoredJob :=
  jobs.map serializeJob

/-- Re-hydrating a parsed record into an in-memory job on load:
`this.jobs.set(job.jobId, { ...job, cancelRequested: false })`
(`src/runner.js` lines 95-98).  The stored form carries no `args`,
no child handle and no supervisor flags. -/
def toJob (r : StoredJob) : Job :=
  { jobId := r.jobId, scriptId := r.scriptId, mode := r.mode, args := [],
    status := r.status, code := r.code, startedAt := r.startedAt,
    endedAt := r.endedAt, durationMs := r.durationMs, createdAt := r.createdAt,
    cancelRequested := false, timedOut := false, hasChild := false, finished := false,
    stdoutRef := r.stdoutRef, stderrRef := r.stderrRef,
    stdoutSize := r.stdoutSize, stderrSize := r.stderrSize,
    stdoutTruncated := r.stdoutTruncated, stderrTruncated := r.stderrTruncated }

/-- Recovery of one parsed record at load time (`loadJobsFromDisk`,
`src/runner.js` lines 87-94): non-terminal records become `failed` with
code `-1`; `endedAt` is set to the load time and, when `startedAt` is
present, `durationMs := max 0 (now - startedAt)` (the `max 0` is the
truncated natural subtraction). -/
def loadOne (now : Nat) (r : StoredJob) : StoredJob :=
  if r.status = .queued ∨ r.status = .running then
    { r with
      status := .failed
      code := some (-1)
      endedAt := some now
      durationMs := match r.startedAt with
        | some startedMs => some (now - startedMs)
        | none => r.durationMs }
  else r

/-- First job with the given id, `this.jobs.get(jobId)`. -/
def lookupJob : List Job → Nat → Option Job
  | [], _ => none
  | j :: rest, jid => if j.jobId = jid then some j else lookupJob rest jid

/-- Replace the first job with the given id, `this.jobs.set` on an
existing key (in-place mutation of the shared job object in the
source). -/
def updateJob : List Job → Nat → Job → List Job
  | [], _, _ => []
  | j :: rest, jid, nj => if j.jobId = jid then nj :: rest else j :: updateJob rest jid nj

/-- `Map.set` semantics used while loading: replace an existing entry,
otherwise append preserving insertion order. -/
def upsertJob (jobs : List Job) (j : Job) : List Job :=
  if (lookupJob jobs j.jobId).isSome then updateJob jobs j.jobId j else jobs ++ [j]

/-- The loop body of `loadJobsFromDisk` (`src/runner.js` lines 83-99):
malformed entries (non-objects or entries without a `jobId`, modelled
as `none`) are skipped; the rest are recovered with `loadOne` and
inserted. -/
def loadJobs (now : Nat) : List (Option StoredJob) → List Job → List Job
  | [], acc => acc
  | none :: rest, acc => loadJobs now rest acc
  | some r :: rest, acc => loadJobs now rest (upsertJob acc (toJob (loadOne now r)))

/-- All jobs loaded from a parsed job-store array. -/
def loadJobsFromDisk (now : Nat) (entries : List (Option StoredJob)) : List Job :=
  loadJobs now entries []

/-- Number of jobs currently in status `running`. -/
def countRunning : List Job → Nat
  | [] => 0
  | j :: rest => (if j.status = .running then 1 else 0) + countRunning rest

/-- Runner state: the in-memory job map (insertion-ordered), the FIFO
queue of job ids (`this.queue` holds `(job, script)` pairs by
reference; scripts only matter for spawning, which is abstracted), the
running counter, the id source and the last persisted file content. -/
structure RState where
  jobs : List Job
  queue : List Nat
  runningCount : Nat
  nextId : Nat
  store : List StoredJob
deriving DecidableEq, Repr

def maxIdOf (jobs : List Job) : Nat :=
  jobs.foldl (fun m j => max m j.jobId) 0

/-- State of a freshly constructed `ScriptRunner` after
`loadJobsFromDisk` (`src/runner.js` lines 55-71): empty queue, zero
running counter, all persisted records recovered.  `nextId` models the
monotone uniqueness of `nextJobId`. -/
def initState (entries : List (Option StoredJob)) (t0 : Nat) : RState :=
  let jobs := loadJobsFromDisk t0 entries
  { jobs := jobs, queue := [], runningCount := 0, nextId := maxIdOf jobs + 1,
    store := entries.filterMap id }

/-- The queued-cancellation transition inside `drainQueue`
(`src/runner.js` lines 231-238). -/
def markCanceledQueued (t : Nat) (j : Job) : Job :=
  { j with
    status := .canceled
    code := some (-1)
    endedAt := some t
    durationMs := some 0 }

/-- Admission: the head of `executeJob` (`src/runner.js` lines
243-247) plus the spawn (`job._child = child`) and the initialization
of the per-execution supervisor flags. -/
def markRunning (t : Nat) (j : Job) : Job :=
  { j with
    status := .running
    startedAt := some t
    hasChild := true
    timedOut := false
    finished := false }

/-- Scheduler bookkeeping carried through the `drainQueue` loop. -/
structure SchedState where
  queue : List Nat
  jobs : List Job
  rc : Nat
  store : List StoredJob
deriving DecidableEq, Repr

/-- The `drainQueue` loop (`src/runner.js` lines 228-241): while the
running counter is below `maxConcurrent` and the queue is non-empty,
pop the head; a cancel-requested job is marked canceled, otherwise it
is admitted (running counter incremented, status `running`). -/
def drainGo (maxC t : Nat) : List Nat → List Job → Nat → List StoredJob → SchedState
  | [], jobs, rc, store => ⟨[], jobs, rc, store⟩
  | jid :: rest, jobs, rc, store =>
    if rc < maxC then
      match lookupJob jobs jid with
      | none => drainGo maxC t rest jobs rc store
      | some j =>
        if j.cancelRequested then
          let jobs' := updateJob jobs jid (markCanceledQueued t j)
          drainGo maxC t rest jobs' rc (persistList jobs')
        else
          let jobs' := updateJob jobs jid (markRunning t j)
          drainGo maxC t rest jobs' (rc + 1) (persistList jobs')
    else ⟨jid :: rest, jobs, rc, store⟩

def drain (maxC : Nat) (s : RState) (t : Nat) : RState :=
  let o := drainGo maxC t s.queue s.jobs s.runningCount s.store
  { s with queue := o.queue, jobs := o.jobs, runningCount := o.rc, store := o.store }

/-- Argument-element loop of `validateRequest` (`src/runner.js` lines
172-191): each element must be a string, at most `itemMaxLength` long,
matching `itemPattern`; the loop stops at the first violation. -/
def validateArgsFrom (spec : ArgSpec) : List ArgVal → Bool
  | [] => true
  | .other :: _ => false
  | .str v :: rest =>
    if spec.itemMaxLength < v.length then false
    else if spec.itemPattern v then validateArgsFrom spec rest
    else false

def strValues (l : List ArgVal) : List String :=
  l.filterMap fun a => match a with | .str s => some s | .other => none

inductive Validated where
  | invalid (code : ErrCode)
  | valid (script : Script) (strArgs : List String)

/-- `validateRequest` (`src/runner.js` lines 156-193).  `args = none`
models a non-array `args` value. -/
def validateRequest (scripts : List Script) (scriptId : Nat)
    (args : Option (List ArgVal)) : Validated :=
  match scripts.find? (fun sc => sc.id = scriptId) with
  | none => .invalid .SCRIPT_NOT_FOUND
  | some script =>
    match args with
    | none => .invalid .INVALID_ARGS
    | some l =>
      if script.argSpec.maxItems < l.length then .invalid .INVALID_ARGS
      else if validateArgsFrom script.argSpec l then .valid script (strValues l)
      else .invalid .INVALID_ARGS

/-- `resolveMode` (`src/runner.js` lines 146-154); `none` models a
request or script mode that is neither `"sync"` nor `"async"`. -/
def resolveMode (defaultMode : Mode) (script : Script) (requested : Option Mode) : Mode :=
  match requested with
  | some m => m
  | none =>
    match script.mode with
    | some m => m
    | none => defaultMode

/-- A freshly created job (`createJob`, `src/runner.js` lines 195-221). -/
def mkJob (jid scriptId : Nat) (args : List String) (mode : Mode) (t : Nat) : Job :=
  { jobId := jid, scriptId := scriptId, mode := mode, args := args,
    status := .queued, code := none, startedAt := none, endedAt := none,
    durationMs := none, createdAt := t, cancelRequested := false,
    timedOut := false, hasChild := false, finished := false,
    stdoutRef := some (toString jid ++ ".stdout.log"),
    stderrRef := some (toString jid ++ ".stderr.log"),
    stdoutSize := 0, stderrSize := 0,
    stdoutTruncated := false, stderrTruncated := false }

inductive SubmitResult where
  | err (code : ErrCode)
  | okJob (isAsync : Bool) (snap : StoredJob)
deriving DecidableEq, Repr

/-- `submitRun` (`src/runner.js` lines 415-442): validate, create the
job, persist, enqueue and drain.  The returned snapshot is taken after
the synchronous drain (in sync mode the source instead resolves a
promise with the terminal snapshot when the executor finishes; the
promise plumbing is outside this embedding). -/
def submitRun (cfg : Config) (s : RState) (scriptId : Nat)
    (args : Option (List ArgVal)) (reqMode : Option Mode) (t : Nat) :
    SubmitResult × RState :=
  match validateRequest cfg.scripts scriptId args with
  | .invalid c => (.err c, s)
  | .valid script strArgs =>
    let mode := resolveMode cfg.defaultMode script reqMode
    let job := mkJob s.nextId script.id strArgs mode t
    let jobs₁ := s.jobs ++ [job]
    let s₁ : RState :=
      { s with
        jobs := jobs₁
        nextId := s.nextId + 1
        store := persistList jobs₁
        queue := s.queue ++ [job.jobId] }
    let s₂ := drain cfg.maxConcurrent s₁ t
    let snap :=
      match lookupJob s₂.jobs job.jobId with
      | some jNow => serializeJob jNow
      | none => serializeJob job
    (.okJob (decide (mode = .async)) snap, s₂)

inductive CancelResult where
  | err (code : ErrCode)
  | ok (snap : StoredJob)
deriving DecidableEq, Repr

/-- `cancelJob` (`src/runner.js` lines 551-577).  Sending `SIGTERM` to
the process group is an external effect with no immediate state
change; its consequence arrives later as a `close` event. -/
def cancelJob (s : RState) (jid : Nat) (t : Nat) : CancelResult × RState :=
  match lookupJob s.jobs jid with
  | none => (.err .JOB_NOT_FOUND, s)
  | some j =>
    if j.status.isTerminal then (.ok (serializeJob j), s)
    else
      let j₁ := { j with cancelRequested := true }
      if j₁.status = .running ∧ j₁.hasChild = true then
        (.ok (serializeJob j₁), { s with jobs := updateJob s.jobs jid j₁ })
      else if j₁.status = .queued then
        let j₂ := { j₁ with
          status := .canceled
          code := some (-1)
          endedAt := some t
          durationMs := some 0 }
        let jobs' := updateJob s.jobs jid j₂
        (.ok (serializeJob j₂), { s with jobs := jobs', store := persistList jobs' })
      else
        (.ok (serializeJob j₁), { s with jobs := updateJob s.jobs jid j₁ })

/-- The terminal-field assignment of `finishJob` (`src/runner.js`
lines 327-338): sets `finished`, the terminal status and code,
`endedAt` and `durationMs = now - startedMs`. -/
def finishStamp (st : Status) (code : Int) (t : Nat) (j : Job) : Job :=
  { j with
    finished := true
    status := st
    code := some code
    endedAt := some t
    durationMs := some (t - j.startedAt.getD t) }

/-- `finishJob` (`src/runner.js` lines 323-346): guarded by the
`finished` flag; sets the terminal fields, decrements the running
counter, persists and drains. -/
def finishJobState (maxC : Nat) (s : RState) (jid : Nat) (st : Status)
    (code : Int) (t : Nat) : RState :=
  match lookupJob s.jobs jid with
  | none => s
  | some j =>
    if j.finished then s
    else
      let jobs' := updateJob s.jobs jid (finishStamp st code t j)
      drain maxC
        { s with
          jobs := jobs'
          runningCount := s.runningCount - 1
          store := persistList jobs' } t

/-- The child `close` handler (`src/runner.js` lines 392-410); only a
job with a spawned child can receive it. -/
def closeEvent (maxC : Nat) (s : RState) (jid : Nat) (signal : Bool)
    (exitCode : Option Int) (t : Nat) : RState :=
  match lookupJob s.jobs jid with
  | none => s
  | some j =>
    if j.hasChild then
      let sc := classifyExit j.timedOut j.cancelRequested signal exitCode
      finishJobState maxC s jid sc.1 sc.2 t
    else s

/-- The child `error` handler (`src/runner.js` lines 383-390). -/
def childErrEvent (maxC : Nat) (s : RState) (jid t : Nat) : RState :=
  match lookupJob s.jobs jid with
  | none => s
  | some j => if j.hasChild then finishJobState maxC s jid .failed (-1) t else s

/-- Expiry of the per-job timer (`src/runner.js` lines 348-353): sets
the `timedOut` flag (and signals the process group, an external
effect).  The timer exists only while a spawned child has not
finished (`clearTimeout` on finish). -/
def timeoutEvent (s : RState) (jid t : Nat) : RState :=
  match lookupJob s.jobs jid with
  | none => s
  | some j =>
    if j.hasChild && !j.finished then
      { s with jobs := updateJob s.jobs jid { j with timedOut := true } }
    else s

/-- The externally triggered events of a running `ScriptRunner`
process, each carrying the clock value at which it is handled. -/
inductive Event where
  | submit (scriptId : Nat) (args : Option (List ArgVal)) (reqMode : Option Mode) (t : Nat)
  | cancel (jobId t : Nat)
  | close (jobId : Nat) (signal : Bool) (exitCode : Option Int) (t : Nat)
  | childErr (jobId t : Nat)
  | timeoutFire (jobId t : Nat)

def applyEvent (cfg : Config) (s : RState) : Event → RState
  | .submit sid args m t => (submitRun cfg s sid args m t).2
  | .cancel jid t => (cancelJob s jid t).2
  | .close jid sg code t => closeEvent cfg.maxConcurrent s jid sg code t
  | .childErr jid t => childErrEvent cfg.maxConcurrent s jid t
  | .timeoutFire jid t => timeoutEvent s jid t

/-- States reachable from a freshly constructed runner. -/
inductive Reachable (cfg : Config) (entries : List (Option StoredJob)) (t0 : Nat) :
    RState → Prop where
  | base : Reachable cfg entries t0 (initState entries t0)
  | step : ∀ {s}, Reachable cfg entries t0 s → ∀ e, Reachable cfg entries t0 (applyEvent cfg s e)

/-- A JavaScript number as tested by `Number.isInteger` in
`getJobLogs` (`src/runner.js` lines 483-484): an integer, or anything
else (float, `NaN`, `undefined`, ...). -/
inductive JsNum where
  | int (n : Int)
  | nonInt
deriving DecidableEq, Repr

def sanitizeOffset : JsNum → Nat
  | .int n => if 0 ≤ n then n.toNat else 0
  | .nonInt => 0

def sanitizeLimit : JsNum → Nat
  | .int n => if 0 < n then n.toNat else 65536
  | .nonInt => 65536

inductive LogsResult where
  | err (code : ErrCode)
  | page (offset nextOffset totalSize : Nat) (truncated : Bool) (data : List Nat)
deriving DecidableEq, Repr

/-- The log-file reference of a stream:
`stream === "stdout" ? job.stdoutRef : job.stderrRef` (line 487). -/
def refOf (stream : String) (job : Job) : Option String :=
  if stream = "stdout" then job.stdoutRef else job.stderrRef

/-- The truncation flag of a stream (lines 496, 509, 524, 546). -/
def truncOf (stream : String) (job : Job) : Bool :=
  if stream = "stdout" then job.stdoutTruncated else job.stderrTruncated

/-- `getJobLogs` (`src/runner.js` lines 474-549).  The filesystem is
abstracted as a map from log-file name to its byte content (`none` =
file does not exist); `fs.readSync` on a regular file at an in-range
offset returns exactly the requested bytes, and the UTF-8 decode of
the read range is abstracted to the raw byte list. -/
def getJobLogs (jobs : List Job) (fsys : String → Option (List Nat)) (jobId : Nat)
    (stream : String) (offset limit : JsNum) : LogsResult :=
  match lookupJob jobs jobId with
  | none => .err .JOB_NOT_FOUND
  | some job =>
    if stream ≠ "stdout" ∧ stream ≠ "stderr" then .err .INVALID_ARGS
    else
      let safeOffset := sanitizeOffset offset
      let safeLimit := min (sanitizeLimit limit) (1024 * 1024)
      let ref := refOf stream job
      let trunc := truncOf stream job
      match ref with
      | none => .page safeOffset safeOffset 0 trunc []
      | some r =>
        match fsys r with
        | none => .page safeOffset safeOffset 0 trunc []
        | some content =>
          let totalSize := content.length
          if totalSize ≤ safeOffset then .page safeOffset safeOffset totalSize trunc []
          else
            let data := (content.drop safeOffset).take (min safeLimit (totalSize - safeOffset))
            .page safeOffset (safeOffset + data.length) totalSize trunc data

/-! ### Generic lemmas about the log-chunk fold -/

theorem foldl_writeLogChunk (cap : Nat) :
    ∀ (chunks : List Nat), (∀ l ∈ chunks, 0 < l) →
      ∀ (size : Nat) (trunc : Bool), size ≤ cap →
        chunks.foldl (writeLogChunk cap) (size, trunc)
          = (min (size + chunks.sum) cap, trunc || decide (cap < size + chunks.sum)) := by
  intro chunks
  induction chunks with
  | nil =>
    intro _ size trunc hle
    have h1 : min (size + 0) cap = size := by omega
    have h2 : decide (cap < size + 0) = false := by
      simp only [decide_eq_false_iff_not]
      omega
    rw [List.foldl_nil, List.sum_nil, h1, h2, Bool.or_false]
  | cons l rest ih =>
    intro hpos size trunc hle
    have hl : 0 < l := hpos l (by simp)
    have hrest : ∀ x ∈ rest, 0 < x := fun x hx => hpos x (by simp [hx])
    simp only [List.foldl_cons, List.sum_cons]
    by_cases hcap : cap ≤ size
    · have hstep : writeLogChunk cap (size, trunc) l = (size, true) := by
        simp [writeLogChunk, hcap]
      rw [hstep, ih hrest size true hle]
      have hsz : size = cap := by omega
      subst hsz
      have h3 : decide (size < size + (l + rest.sum)) = true := by
        simp only [decide_eq_true_eq]
        omega
      rw [h3, Bool.or_true]
      simp only [Prod.mk.injEq]
      constructor
      · omega
      · have h4 : decide (size < size + rest.sum) = true ∨
            decide (size < size + rest.sum) = false := by
          cases decide (size < size + rest.sum) <;> simp
        rcases h4 with h4 | h4 <;> rw [h4] <;> rfl
    · have hlt : size < cap := by omega
      have hstep : writeLogChunk cap (size, trunc) l
          = (size + min l (cap - size), trunc || decide (min l (cap - size) < l)) := by
        simp [writeLogChunk, hcap]
      rw [hstep, ih hrest _ _ (by omega)]
      simp only [Prod.mk.injEq]
      constructor
      · omega
      · rw [Bool.or_assoc]
        congr 1
        rw [← Bool.decide_or, decide_eq_decide]
        omega

theorem processChunks_closed (cap : Nat) (chunks : List Nat)
    (hpos : ∀ l ∈ chunks, 0 < l) :
    processChunks cap chunks = (min chunks.sum cap, decide (cap < chunks.sum)) := by
  have h := foldl_writeLogChunk cap chunks hpos 0 false (Nat.zero_le cap)
  simpa [processChunks] using h

/-! ### Claim theorems: exit classification and log caps -/

/-- C1: the terminal status of a child-exit event is decided in the
exact priority order `timedOut` → `cancelRequested` → signal exit →
exit code `0` → nonzero/unavailable exit code, and a child killed by a
`SIGTERM` sent for cancel or timeout is never classified as `failed`. -/
theorem classifyExit_priority (t c sg : Bool) (code : Option Int) :
    (t = true → classifyExit t c sg code = (.timed_out, -1)) ∧
    (t = false → c = true → classifyExit t c sg code = (.canceled, -1)) ∧
    (t = false → c = false → sg = true → classifyExit t c sg code = (.failed, -1)) ∧
    (t = false → c = false → sg = false → code = some 0 →
      classifyExit t c sg code = (.succeeded, 0)) ∧
    (t = false → c = false → sg = false → code ≠ some 0 →
      classifyExit t c sg code = (.failed, code.getD (-1))) ∧
    (sg = true → t = true ∨ c = true → (classifyExit t c sg code).1 ≠ .failed) := by
  refine ⟨?_, ?_, ?_, ?_, ?_, ?_⟩
  · intro ht
    subst ht
    simp [classifyExit]
  · intro ht hc
    subst ht
    subst hc
    simp [classifyExit]
  · intro ht hc hs
    subst ht
    subst hc
    subst hs
    simp [classifyExit]
  · intro ht hc hs hcode
    subst ht
    subst hc
    subst hs
    subst hcode
    simp [classifyExit]
  · intro ht hc hs hcode
    subst ht
    subst hc
    subst hs
    simp [classifyExit, hcode]
  · intro hs hor
    subst hs
    rcases hor with ht | hc
    · subst ht
      simp [classifyExit]
    · subst hc
      cases t <;> simp [classifyExit]

theorem classifyExit_priority_witness :
    (classifyExit true true true (some 3) = (.timed_out, -1)) ∧
    (classifyExit false true true none = (.canceled, -1)) ∧
    (classifyExit false false true none = (.failed, -1)) ∧
    (classifyExit false false false (some 0) = (.succeeded, 0)) ∧
    (classifyExit false false false (some 7) = (.failed, 7)) ∧
    ((classifyExit true false true none).1 ≠ .failed) :=
  ⟨(classifyExit_priority true true true (some 3)).1 rfl,
   (classifyExit_priority false true true none).2.1 rfl rfl,
   (classifyExit_priority false false true none).2.2.1 rfl rfl rfl,
   (classifyExit_priority false false false (some 0)).2.2.2.1 rfl rfl rfl rfl,
   (classifyExit_priority false false false (some 7)).2.2.2.2.1 rfl rfl rfl (by decide),
   (classifyExit_priority true false true none).2.2.2.2.2 rfl (Or.inl rfl)⟩

/-- C4: for every sequence of (nonempty) chunks delivered on one
stream, the log-write step keeps the stream size at or below the cap at
all times, and the truncated flag ends up true exactly when the
producer attempted to write more than the cap in total; a chunk
arriving at the cap is discarded and sets the flag, and a chunk
crossing the cap is clamped to the remaining allowance and sets the
flag.  (Node.js `data` events never deliver empty chunks, hence the
positivity hypothesis.) -/
theorem writeLog_cap_invariant (cap : Nat) (chunks : List Nat)
    (hpos : ∀ l ∈ chunks, 0 < l) :
    (∀ n : Nat, (processChunks cap (chunks.take n)).1 ≤ cap ∧
      ((processChunks cap (chunks.take n)).2 = true ↔ cap < (chunks.take n).sum)) ∧
    ((processChunks cap chunks).1 = min chunks.sum cap) ∧
    (∀ size trunc l, cap ≤ size → writeLogChunk cap (size, trunc) l = (size, true)) ∧
    (∀ size trunc l, size < cap → cap < size + l →
      writeLogChunk cap (size, trunc) l = (cap, true)) := by
  refine ⟨?_, ?_, ?_, ?_⟩
  · intro n
    have hposn : ∀ l ∈ chunks.take n, 0 < l := fun l hl =>
      hpos l (List.take_subset n chunks hl)
    rw [processChunks_closed cap _ hposn]
    constructor
    · omega
    · simp
  · rw [processChunks_closed cap chunks hpos]
  · intro size trunc l hcap
    simp [writeLogChunk, hcap]
  · intro size trunc l hlt hcross
    have h1 : ¬ cap ≤ size := by omega
    have h2 : min l (cap - size) = cap - size := by omega
    have h3 : size + (cap - size) = cap := by omega
    have h4 : decide (cap - size < l) = true := by
      simp only [decide_eq_true_eq]
      omega
    simp [writeLogChunk, h1, h2, h3, h4]

theorem writeLog_cap_invariant_witness :
    (processChunks 2 ([1, 2].take 2)).1 ≤ 2 ∧
      ((processChunks 2 ([1, 2].take 2)).2 = true ↔ 2 < ([1, 2].take 2).sum) :=
  (writeLog_cap_invariant 2 [1, 2] (by decide)).1 2

/-- C5: the claim states that constructing the runner with
`runner.maxLogBytesPerStream = 0` writes no bytes.  The code belies it:
the constructor computes `config.runner.maxLogBytesPerStream || 1024*1024`,
and `0` is falsy in JavaScript, so the effective cap silently becomes
1 MiB and a 5-byte chunk is written in full with the truncated flag
left false — while `writeLogChunk` itself, given a true cap of `0`,
would implement exactly the claimed behavior (no bytes, flag set).
The spec explicitly lists the cap-`0` boundary behavior, so this is a
bug in the constructor's defaulting, not in the spec. -/
theorem maxLogBytes_zero_config_bug :
    effectiveMaxLogBytes (some 0) = 1024 * 1024 ∧
    processChunks (effectiveMaxLogBytes (some 0)) [5] = (5, false) ∧
    processChunks 0 [5] = (0, true) := by
  refine ⟨rfl, ?_, ?_⟩ <;> decide

/-! ### Lemmas about the job map -/

theorem lookupJob_mem {jobs : List Job} {jid : Nat} {j : Job}
    (h : lookupJob jobs jid = some j) : j ∈ jobs ∧ j.jobId = jid := by
  induction jobs with
  | nil => simp [lookupJob] at h
  | cons a rest ih =>
    by_cases ha : a.jobId = jid
    · simp only [lookupJob, if_pos ha] at h
      cases h
      exact ⟨by simp, ha⟩
    · simp only [lookupJob, if_neg ha] at h
      rcases ih h with ⟨hm, hid⟩
      exact ⟨by simp [hm], hid⟩

theorem lookupJob_update_self {jobs : List Job} {jid : Nat} {j nj : Job}
    (h : lookupJob jobs jid = some j) (hnj : nj.jobId = jid) :
    lookupJob (updateJob jobs jid nj) jid = some nj := by
  induction jobs with
  | nil => simp [lookupJob] at h
  | cons a rest ih =>
    by_cases ha : a.jobId = jid
    · simp [updateJob, ha, lookupJob, hnj]
    · simp only [lookupJob, if_neg ha] at h
      simp [updateJob, ha, lookupJob, ih h]

theorem lookupJob_update_ne {jobs : List Job} {jid jid' : Nat} {nj : Job}
    (hnj : nj.jobId = jid) (hne : jid' ≠ jid) :
    lookupJob (updateJob jobs jid nj) jid' = lookupJob jobs jid' := by
  induction jobs with
  | nil => simp [updateJob]
  | cons a rest ih =>
    simp only [updateJob]
    by_cases ha : a.jobId = jid
    · have h1 : ¬ nj.jobId = jid' := by
        rw [hnj]
        exact fun hh => hne hh.symm
      have h2 : ¬ a.jobId = jid' := by
        rw [ha]
        exact fun hh => hne hh.symm
      rw [if_pos ha]
      simp only [lookupJob]
      rw [if_neg h1, if_neg h2]
    · rw [if_neg ha]
      simp only [lookupJob]
      by_cases ha' : a.jobId = jid'
      · rw [if_pos ha', if_pos ha']
      · rw [if_neg ha', if_neg ha', ih]

theorem updateJob_lookup_self {jobs : List Job} {jid : Nat} {j : Job}
    (h : lookupJob jobs jid = some j) : updateJob jobs jid j = jobs := by
  induction jobs with
  | nil => simp [updateJob]
  | cons a rest ih =>
    by_cases ha : a.jobId = jid
    · simp only [lookupJob, if_pos ha] at h
      cases h
      simp [updateJob, ha]
    · simp only [lookupJob, if_neg ha] at h
      simp [updateJob, ha, ih h]

theorem mem_updateJob {jobs : List Job} {jid : Nat} {nj j' : Job}
    (h : j' ∈ updateJob jobs jid nj) : j' = nj ∨ j' ∈ jobs := by
  induction jobs with
  | nil => simp [updateJob] at h
  | cons a rest ih =>
    by_cases ha : a.jobId = jid
    · simp only [updateJob, if_pos ha, List.mem_cons] at h
      rcases h with h | h
      · exact Or.inl h
      · exact Or.inr (by simp [h])
    · simp only [updateJob, if_neg ha, List.mem_cons] at h
      rcases h with h | h
      · exact Or.inr (by simp [h])
      · rcases ih h with h | h
        · exact Or.inl h
        · exact Or.inr (by simp [h])

theorem mem_updateJob_of_ne {jobs : List Job} {jid : Nat} {nj j : Job}
    (hj : j ∈ jobs) (hne : j.jobId ≠ jid) : j ∈ updateJob jobs jid nj := by
  induction jobs with
  | nil => simp at hj
  | cons a rest ih =>
    rcases List.mem_cons.mp hj with h | h
    · subst h
      simp [updateJob, hne]
    · by_cases ha : a.jobId = jid
      · simp [updateJob, ha, h]
      · simp [updateJob, ha, ih h]

theorem ids_updateJob {jobs : List Job} {jid : Nat} {nj : Job}
    (hnj : nj.jobId = jid) :
    (updateJob jobs jid nj).map Job.jobId = jobs.map Job.jobId := by
  induction jobs with
  | nil => simp [updateJob]
  | cons a rest ih =>
    by_cases ha : a.jobId = jid
    · simp [updateJob, ha, hnj]
    · simp [updateJob, ha, ih]

theorem lookupJob_eq_none_iff {jobs : List Job} {jid : Nat} :
    lookupJob jobs jid = none ↔ jid ∉ jobs.map Job.jobId := by
  induction jobs with
  | nil => simp [lookupJob]
  | cons a rest ih =>
    simp only [lookupJob, List.map_cons, List.mem_cons]
    by_cases ha : a.jobId = jid
    · simp [ha]
    · rw [if_neg ha, ih]
      have hne : ¬ jid = a.jobId := fun hh => ha hh.symm
      constructor
      · intro h hmem
        rcases hmem with hh | hh
        · exact hne hh
        · exact h hh
      · intro h hmem
        exact h (Or.inr hmem)

theorem lookupJob_of_mem_nodup {jobs : List Job} {j : Job}
    (hn : (jobs.map Job.jobId).Nodup) (hj : j ∈ jobs) :
    lookupJob jobs j.jobId = some j := by
  induction jobs with
  | nil => simp at hj
  | cons a rest ih =>
    rcases List.mem_cons.mp hj with h | h
    · subst h
      simp [lookupJob]
    · have hn' := (List.nodup_cons.mp hn)
      by_cases ha : a.jobId = j.jobId
      · exfalso
        exact hn'.1 (ha ▸ List.mem_map_of_mem Job.jobId h)
      · simp [lookupJob, ha, ih hn'.2 h]

theorem lookupJob_append_left {jobs l₂ : List Job} {jid : Nat} {j : Job}
    (h : lookupJob jobs jid = some j) :
    lookupJob (jobs ++ l₂) jid = some j := by
  induction jobs with
  | nil => simp [lookupJob] at h
  | cons a rest ih =>
    by_cases ha : a.jobId = jid
    · simp only [lookupJob, if_pos ha] at h
      simp [lookupJob, ha, h]
    · simp only [lookupJob, if_neg ha] at h
      simp [lookupJob, ha, ih h]

theorem lookupJob_append_right {jobs l₂ : List Job} {jid : Nat}
    (h : lookupJob jobs jid = none) :
    lookupJob (jobs ++ l₂) jid = lookupJob l₂ jid := by
  induction jobs with
  | nil => simp
  | cons a rest ih =>
    by_cases ha : a.jobId = jid
    · simp [lookupJob, ha] at h
    · simp only [lookupJob, if_neg ha] at h
      simp [lookupJob, ha, ih h]

theorem countRunning_append (l₁ l₂ : List Job) :
    countRunning (l₁ ++ l₂) = countRunning l₁ + countRunning l₂ := by
  induction l₁ with
  | nil => simp [countRunning]
  | cons a rest ih =>
    simp only [List.cons_append, countRunning]
    rw [show countRunning (rest.append l₂) = countRunning rest + countRunning l₂ from ih]
    omega

theorem countRunning_updateJob {jobs : List Job} {jid : Nat} {j : Job} (nj : Job)
    (h : lookupJob jobs jid = some j) :
    countRunning (updateJob jobs jid nj) + (if j.status = .running then 1 else 0)
      = countRunning jobs + (if nj.status = .running then 1 else 0) := by
  induction jobs with
  | nil => simp [lookupJob] at h
  | cons a rest ih =>
    by_cases ha : a.jobId = jid
    · simp only [lookupJob, if_pos ha] at h
      cases h
      simp only [updateJob, if_pos ha, countRunning]
      omega
    · simp only [lookupJob, if_neg ha] at h
      simp only [updateJob, if_neg ha, countRunning]
      have := ih h
      omega

theorem countRunning_pos {jobs : List Job} {j : Job}
    (hj : j ∈ jobs) (hr : j.status = .running) : 1 ≤ countRunning jobs := by
  induction jobs with
  | nil => simp at hj
  | cons a rest ih =>
    rcases List.mem_cons.mp hj with h | h
    · subst h
      simp [countRunning, hr]
    · simp only [countRunning]
      have := ih h
      omega

theorem countRunning_eq_zero {jobs : List Job}
    (h : ∀ j ∈ jobs, j.status ≠ .running) : countRunning jobs = 0 := by
  induction jobs with
  | nil => rfl
  | cons a rest ih =>
    have ha := h a (by simp)
    simp only [countRunning, if_neg ha]
    have := ih fun j hj => h j (by simp [hj])
    omega

/-! ### Claim C7: recovery of persisted jobs at construction -/

theorem loadOne_nonterminal {now : Nat} {r : StoredJob}
    (h : r.status = .queued ∨ r.status = .running) :
    loadOne now r
      = { r with
          status := .failed
          code := some (-1)
          endedAt := some now
          durationMs := match r.startedAt with
            | some startedMs => some (now - startedMs)
            | none => r.durationMs } := by
  simp [loadOne, h]

theorem loadOne_terminal {now : Nat} {r : StoredJob}
    (h : r.status.isTerminal = true) : loadOne now r = r := by
  have h1 : ¬ (r.status = .queued ∨ r.status = .running) := by
    rintro (h2 | h2) <;> rw [h2] at h <;> simp [Status.isTerminal] at h
  simp [loadOne, h1]

theorem mem_upsertJob {acc : List Job} {nj j : Job}
    (h : j ∈ upsertJob acc nj) : j = nj ∨ j ∈ acc := by
  by_cases hl : (lookupJob acc nj.jobId).isSome
  · simp only [upsertJob, if_pos hl] at h
    exact mem_updateJob h
  · simp only [upsertJob, if_neg hl, List.mem_append, List.mem_singleton] at h
    tauto

theorem mem_loadJobs {now : Nat} :
    ∀ (entries : List (Option StoredJob)) (acc : List Job) (j : Job),
      j ∈ loadJobs now entries acc →
      j ∈ acc ∨ ∃ r, some r ∈ entries ∧ j = toJob (loadOne now r) := by
  intro entries
  induction entries with
  | nil =>
    intro acc j hj
    exact Or.inl hj
  | cons e rest ih =>
    intro acc j hj
    cases e with
    | none =>
      rcases ih acc j hj with h | ⟨r, hr, hjr⟩
      · exact Or.inl h
      · exact Or.inr ⟨r, by simp [hr], hjr⟩
    | some r₀ =>
      rcases ih _ j hj with h | ⟨r, hr, hjr⟩
      · rcases mem_upsertJob h with h | h
        · exact Or.inr ⟨r₀, by simp, h⟩
        · exact Or.inl h
      · exact Or.inr ⟨r, by simp [hr], hjr⟩

/-- C7: at construction, persisted records in a non-terminal state are
recovered as `failed` with code `-1`, `endedAt` set to the load time
and `durationMs` computed from `startedAt` when known; terminal records
are loaded unchanged; malformed entries are skipped, so every loaded
job originates from a well-formed entry. -/
theorem loadJobs_recovery (now : Nat) :
    (∀ r : StoredJob, r.status = .queued ∨ r.status = .running →
      loadOne now r
        = { r with
            status := .failed
            code := some (-1)
            endedAt := some now
            durationMs := match r.startedAt with
              | some startedMs => some (now - startedMs)
              | none => r.durationMs }) ∧
    (∀ r : StoredJob, r.status.isTerminal = true → loadOne now r = r) ∧
    (∀ (rest : List (Option StoredJob)) (acc : List Job),
      loadJobs now (none :: rest) acc = loadJobs now rest acc) ∧
    (∀ (entries : List (Option StoredJob)) (j : Job),
      j ∈ loadJobsFromDisk now entries →
      ∃ r, some r ∈ entries ∧ j = toJob (loadOne now r)) := by
  refine ⟨fun r h => loadOne_nonterminal h, fun r h => loadOne_terminal h,
    fun rest acc => rfl, ?_⟩
  intro entries j hj
  rcases mem_loadJobs entries [] j hj with h | h
  · simp at h
  · exact h

/-- A persisted record that was `running` when the prior process died. -/
def demoRunningRec : StoredJob :=
  { jobId := 1
    scriptId := 1
    status := .running
    code := none
    startedAt := some 20
    endedAt := none
    durationMs := none
    createdAt := 10
    mode := .async
    stdoutRef := none
    stderrRef := none
    stdoutSize := 0
    stderrSize := 0
    stdoutTruncated := false
    stderrTruncated := false }

/-- A persisted record already in a terminal state. -/
def demoDoneRec : StoredJob :=
  { demoRunningRec with
    jobId := 2
    status := .succeeded
    code := some 0
    endedAt := some 30
    durationMs := some 10
    mode := .sync }

theorem loadJobs_recovery_witness :
    (loadOne 50 demoRunningRec).status = .failed ∧
    (loadOne 50 demoRunningRec).code = some (-1) ∧
    (loadOne 50 demoRunningRec).endedAt = some 50 ∧
    (loadOne 50 demoRunningRec).durationMs = some 30 ∧
    loadOne 50 demoDoneRec = demoDoneRec := by
  have h := (loadJobs_recovery 50).1 demoRunningRec (Or.inr rfl)
  refine ⟨?_, ?_, ?_, ?_, (loadJobs_recovery 50).2.1 demoDoneRec rfl⟩ <;>
    rw [h] <;> rfl

/-! ### Claim C3: invalid submissions create no job -/

/-- An argument element violating the per-script constraints
(non-string, too long, or not matching the pattern). -/
def badArg (spec : ArgSpec) : ArgVal → Prop
  | .other => True
  | .str v => spec.itemMaxLength < v.length ∨ spec.itemPattern v = false

theorem validateArgsFrom_false_of_bad {spec : ArgSpec} :
    ∀ {l : List ArgVal}, (∃ a ∈ l, badArg spec a) → validateArgsFrom spec l = false := by
  intro l
  induction l with
  | nil =>
    rintro ⟨a, ha, _⟩
    simp at ha
  | cons a rest ih =>
    rintro ⟨b, hb, hbad⟩
    rcases List.mem_cons.mp hb with hhead | htail
    · subst hhead
      cases b with
      | other => rfl
      | str v =>
        rcases hbad with hbad | hbad
        · simp [validateArgsFrom, hbad]
        · by_cases hlen : spec.itemMaxLength < v.length
          · simp [validateArgsFrom, hlen]
          · simp [validateArgsFrom, hlen, hbad]
    · cases a with
      | other => rfl
      | str v =>
        by_cases hlen : spec.itemMaxLength < v.length
        · simp [validateArgsFrom, hlen]
        · by_cases hpat : spec.itemPattern v
          · simp [validateArgsFrom, hlen, hpat, ih ⟨b, htail, hbad⟩]
          · simp [validateArgsFrom, hlen, hpat]

/-- C3: a submit whose `scriptId` is unknown, or whose `args` violate
the declared constraints (not an array, too many elements, a
non-string element, an element too long, or an element not matching
the pattern), returns `ok:false` with `SCRIPT_NOT_FOUND` resp.
`INVALID_ARGS`, and the runner state — job map, queue and persisted
store — is returned unchanged: no job is created. -/
theorem submitRun_invalid_no_job (cfg : Config) (s : RState) (scriptId : Nat)
    (args : Option (List ArgVal)) (reqMode : Option Mode) (t : Nat) :
    (cfg.scripts.find? (fun sc => sc.id = scriptId) = none →
      submitRun cfg s scriptId args reqMode t = (.err .SCRIPT_NOT_FOUND, s)) ∧
    (∀ script, cfg.scripts.find? (fun sc => sc.id = scriptId) = some script →
      (args = none ∨ ∃ l, args = some l ∧
        (script.argSpec.maxItems < l.length ∨ ∃ a ∈ l, badArg script.argSpec a)) →
      submitRun cfg s scriptId args reqMode t = (.err .INVALID_ARGS, s)) := by
  constructor
  · intro hf
    simp [submitRun, validateRequest, hf]
  · intro script hf hbad
    rcases hbad with hnone | ⟨l, hl, hviol⟩
    · subst hnone
      simp [submitRun, validateRequest, hf]
    · subst hl
      by_cases hlen : script.argSpec.maxItems < l.length
      · simp [submitRun, validateRequest, hf, hlen]
      · rcases hviol with hviol | hviol
        · exact absurd hviol hlen
        · have hfalse := validateArgsFrom_false_of_bad hviol
          simp [submitRun, validateRequest, hf, hlen, hfalse]

def demoSpec : ArgSpec :=
  { maxItems := 2
    itemMaxLength := 4
    itemPattern := fun v => decide (v.length ≤ 4) }

def demoScript : Script :=
  { id := 1
    mode := none
    timeoutSec := 0
    argSpec := demoSpec }

def demoCfg : Config :=
  { maxConcurrent := 1
    defaultMode := .sync
    scripts := [demoScript] }

theorem submitRun_invalid_no_job_witness :
    submitRun demoCfg (initState [] 0) 2 (some []) none 5
      = (.err .SCRIPT_NOT_FOUND, initState [] 0) ∧
    submitRun demoCfg (initState [] 0) 1 (some [.other]) none 5
      = (.err .INVALID_ARGS, initState [] 0) :=
  ⟨(submitRun_invalid_no_job demoCfg (initState [] 0) 2 (some []) none 5).1 rfl,
   (submitRun_invalid_no_job demoCfg (initState [] 0) 1 (some [.other]) none 5).2
     demoScript rfl
     (Or.inr ⟨[.other], rfl, Or.inr ⟨.other, by simp, trivial⟩⟩)⟩

/-! ### Claim C8: idempotence of cancelJob -/

/-- `job.cancelRequested = true` (`src/runner.js` line 565). -/
def setCancel (j : Job) : Job := { j with cancelRequested := true }

/-- The full queued-cancellation stamp of `cancelJob`
(`src/runner.js` lines 565 and 568-573). -/
def cancelStamp (t : Nat) (j : Job) : Job :=
  { j with
    cancelRequested := true
    status := .canceled
    code := some (-1)
    endedAt := some t
    durationMs := some 0 }

@[simp] theorem setCancel_jobId (j : Job) : (setCancel j).jobId = j.jobId := rfl

@[simp] theorem setCancel_status (j : Job) : (setCancel j).status = j.status := rfl

@[simp] theorem setCancel_hasChild (j : Job) : (setCancel j).hasChild = j.hasChild := rfl

@[simp] theorem setCancel_finished (j : Job) : (setCancel j).finished = j.finished := rfl

@[simp] theorem cancelStamp_jobId (t : Nat) (j : Job) :
    (cancelStamp t j).jobId = j.jobId := rfl

@[simp] theorem cancelStamp_status (t : Nat) (j : Job) :
    (cancelStamp t j).status = .canceled := rfl

@[simp] theorem cancelStamp_hasChild (t : Nat) (j : Job) :
    (cancelStamp t j).hasChild = j.hasChild := rfl

@[simp] theorem cancelStamp_finished (t : Nat) (j : Job) :
    (cancelStamp t j).finished = j.finished := rfl

theorem cancelJob_none {s : RState} {jid : Nat} (t : Nat)
    (h : lookupJob s.jobs jid = none) :
    cancelJob s jid t = (.err .JOB_NOT_FOUND, s) := by
  simp [cancelJob, h]

theorem cancelJob_terminal {s : RState} {jid : Nat} {j : Job} (t : Nat)
    (h : lookupJob s.jobs jid = some j) (ht : j.status.isTerminal = true) :
    cancelJob s jid t = (.ok (serializeJob j), s) := by
  simp [cancelJob, h, ht]

theorem cancelJob_running {s : RState} {jid : Nat} {j j' : Job} (t : Nat)
    (h : lookupJob s.jobs jid = some j) (hr : j.status = .running)
    (hc : j.hasChild = true) (hj : j' = setCancel j) :
    cancelJob s jid t
      = (.ok (serializeJob j'), { s with jobs := updateJob s.jobs jid j' }) := by
  subst hj
  simp [cancelJob, setCancel, h, hr, hc, Status.isTerminal]

theorem cancelJob_queued {s : RState} {jid : Nat} {j j' : Job} (t : Nat)
    (h : lookupJob s.jobs jid = some j) (hq : j.status = .queued)
    (hj : j' = cancelStamp t j) :
    cancelJob s jid t
      = (.ok (serializeJob j'),
         { s with
           jobs := updateJob s.jobs jid j'
           store := persistList (updateJob s.jobs jid j') }) := by
  subst hj
  simp [cancelJob, cancelStamp, h, hq, Status.isTerminal]

theorem cancelJob_other {s : RState} {jid : Nat} {j j' : Job} (t : Nat)
    (h : lookupJob s.jobs jid = some j) (ht : ¬ j.status.isTerminal = true)
    (hnr : ¬ (j.status = .running ∧ j.hasChild = true))
    (hnq : ¬ j.status = .queued)
    (hj : j' = setCancel j) :
    cancelJob s jid t
      = (.ok (serializeJob j'), { s with jobs := updateJob s.jobs jid j' }) := by
  subst hj
  simp [cancelJob, setCancel, h, ht, hnr, hnq]

theorem cancelJob_idem_aux (s : RState) (jid t₁ t₂ : Nat) :
    cancelJob (cancelJob s jid t₁).2 jid t₂ = cancelJob s jid t₁ := by
  rcases h : lookupJob s.jobs jid with _ | j
  · rw [cancelJob_none t₁ h]
    exact cancelJob_none t₂ h
  · have hid : j.jobId = jid := (lookupJob_mem h).2
    by_cases hterm : j.status.isTerminal = true
    · rw [cancelJob_terminal t₁ h hterm]
      exact cancelJob_terminal t₂ h hterm
    · by_cases hrun : j.status = .running ∧ j.hasChild = true
      · rw [cancelJob_running t₁ h hrun.1 hrun.2 rfl]
        have hlook :
            lookupJob
              ({ s with jobs := updateJob s.jobs jid (setCancel j) } : RState).jobs jid
              = some (setCancel j) :=
          lookupJob_update_self h hid
        rw [cancelJob_running t₂ hlook hrun.1 hrun.2
          (show setCancel j = setCancel (setCancel j) from rfl),
          updateJob_lookup_self hlook]
      · by_cases hq : j.status = .queued
        · rw [cancelJob_queued t₁ h hq rfl]
          have hlook :
              lookupJob
                ({ s with
                  jobs := updateJob s.jobs jid (cancelStamp t₁ j)
                  store := persistList (updateJob s.jobs jid (cancelStamp t₁ j)) }
                  : RState).jobs jid
                = some (cancelStamp t₁ j) :=
            lookupJob_update_self h hid
          exact cancelJob_terminal t₂ hlook rfl
        · rw [cancelJob_other t₁ h hterm hrun hq rfl]
          have hlook :
              lookupJob
                ({ s with jobs := updateJob s.jobs jid (setCancel j) } : RState).jobs jid
                = some (setCancel j) :=
            lookupJob_update_self h hid
          rw [cancelJob_other t₂ hlook hterm hrun hq
            (show setCancel j = setCancel (setCancel j) from rfl),
            updateJob_lookup_self hlook]

/-- C8: `cancelJob` is idempotent: calling it twice in a row with no
intervening events returns equal results and leaves the state equal to
the state after the first call; on an unknown id it returns
`JOB_NOT_FOUND`, on a terminal job it is a no-op returning the current
snapshot, and on a queued job both calls agree on the resulting
canceled snapshot. -/
theorem cancelJob_idempotent (s : RState) (jid t₁ t₂ : Nat) :
    cancelJob (cancelJob s jid t₁).2 jid t₂ = cancelJob s jid t₁ ∧
    (lookupJob s.jobs jid = none →
      cancelJob s jid t₁ = (.err .JOB_NOT_FOUND, s)) ∧
    (∀ j, lookupJob s.jobs jid = some j → j.status.isTerminal = true →
      cancelJob s jid t₁ = (.ok (serializeJob j), s)) ∧
    (∀ j, lookupJob s.jobs jid = some j → j.status = .queued →
      ∃ snap, (cancelJob s jid t₁).1 = .ok snap ∧ snap.status = .canceled ∧
        (cancelJob (cancelJob s jid t₁).2 jid t₂).1 = .ok snap) := by
  refine ⟨cancelJob_idem_aux s jid t₁ t₂, ?_, ?_, ?_⟩
  · intro h
    exact cancelJob_none t₁ h
  · intro j h hterm
    exact cancelJob_terminal t₁ h hterm
  · intro j h hq
    refine ⟨serializeJob (cancelStamp t₁ j), ?_, rfl, ?_⟩
    · rw [cancelJob_queued t₁ h hq rfl]
    · rw [cancelJob_idem_aux s jid t₁ t₂, cancelJob_queued t₁ h hq rfl]

/-! ### Claims C6 and C10: log paging -/

/-- C6: for a known job, a valid stream, an integer offset `≥ 0` and an
integer limit `> 0`, `getJobLogs` returns a page whose `totalSize` is
the log file's current size, whose `data` is the byte range of at most
`min(limit, 1 MiB)` bytes read starting at `offset`, and whose
`nextOffset` is `offset + bytesRead`; when `offset ≥ totalSize` the
data is empty with `nextOffset = offset`, and when the log file does
not exist yet the data is empty with `totalSize = 0`. -/
theorem getJobLogs_page_spec (jobs : List Job) (fsys : String → Option (List Nat))
    (jobId : Nat) (stream : String) (o l : Int) (job : Job)
    (hjob : lookupJob jobs jobId = some job)
    (hstream : stream = "stdout" ∨ stream = "stderr")
    (ho : 0 ≤ o) (hl : 0 < l) :
    (refOf stream job = none →
      getJobLogs jobs fsys jobId stream (.int o) (.int l)
        = .page o.toNat o.toNat 0 (truncOf stream job) []) ∧
    (∀ r, refOf stream job = some r → fsys r = none →
      getJobLogs jobs fsys jobId stream (.int o) (.int l)
        = .page o.toNat o.toNat 0 (truncOf stream job) []) ∧
    (∀ r content, refOf stream job = some r → fsys r = some content →
      content.length ≤ o.toNat →
      getJobLogs jobs fsys jobId stream (.int o) (.int l)
        = .page o.toNat o.toNat content.length (truncOf stream job) []) ∧
    (∀ r content, refOf stream job = some r → fsys r = some content →
      o.toNat < content.length →
      getJobLogs jobs fsys jobId stream (.int o) (.int l)
        = .page o.toNat
            (o.toNat + min (min l.toNat (1024 * 1024)) (content.length - o.toNat))
            content.length (truncOf stream job)
            ((content.drop o.toNat).take
              (min (min l.toNat (1024 * 1024)) (content.length - o.toNat))) ∧
      min (min l.toNat (1024 * 1024)) (content.length - o.toNat)
        ≤ min l.toNat (1024 * 1024)) := by
  have hcond : ¬ (stream ≠ "stdout" ∧ stream ≠ "stderr") := by
    rcases hstream with h | h <;> simp [h]
  have hso : sanitizeOffset (.int o) = o.toNat := by
    simp [sanitizeOffset, ho]
  have hsl : sanitizeLimit (.int l) = l.toNat := by
    simp [sanitizeLimit, hl]
  refine ⟨?_, ?_, ?_, ?_⟩
  · intro href
    simp [getJobLogs, hjob, hcond, hso, hsl, href]
  · intro r href hf
    simp [getJobLogs, hjob, hcond, hso, hsl, href, hf]
  · intro r content href hf hle
    simp [getJobLogs, hjob, hcond, hso, hsl, href, hf, hle]
  · intro r content href hf hlt
    have hnle : ¬ content.length ≤ o.toNat := by omega
    have hk : ((content.drop o.toNat).take
        (min (min l.toNat (1024 * 1024)) (content.length - o.toNat))).length
        = min (min l.toNat (1024 * 1024)) (content.length - o.toNat) := by
      simp only [List.length_take, List.length_drop]
      omega
    refine ⟨?_, by omega⟩
    simp [getJobLogs, hjob, hcond, hso, hsl, href, hf, hnle, hk]

def demoJob : Job := mkJob 1 1 [] .sync 0

def demoJobs : List Job := [demoJob]

def demoFs : String → Option (List Nat) :=
  fun r => if r = "1.stdout.log" then some [10, 20, 30] else none

theorem getJobLogs_page_spec_witness :
    getJobLogs demoJobs demoFs 1 "stdout" (.int 1) (.int 1)
      = .page 1
          (1 + min (min (Int.toNat 1) (1024 * 1024)) ([10, 20, 30].length - 1))
          [10, 20, 30].length false
          (([10, 20, 30].drop 1).take
            (min (min (Int.toNat 1) (1024 * 1024)) ([10, 20, 30].length - 1))) ∧
    min (min (Int.toNat 1) (1024 * 1024)) ([10, 20, 30].length - 1)
      ≤ min (Int.toNat 1) (1024 * 1024) :=
  (getJobLogs_page_spec demoJobs demoFs 1 "stdout" 1 1 demoJob rfl (Or.inl rfl)
    (by decide) (by decide)).2.2.2 "1.stdout.log" [10, 20, 30] rfl rfl (by decide)

/-- C10: `getJobLogs` never errors on out-of-range paging parameters
for a known job and a valid stream: a non-integer or negative offset is
replaced by 0, a non-integer or non-positive limit is replaced by
65536, any limit is capped at 1 MiB, and the only error results are
`JOB_NOT_FOUND` for an unknown job and `INVALID_ARGS` for a stream
other than stdout/stderr. -/
theorem getJobLogs_total_sanitized (jobs : List Job)
    (fsys : String → Option (List Nat)) (jobId : Nat) (stream : String)
    (off lim : JsNum) :
    (lookupJob jobs jobId = none →
      getJobLogs jobs fsys jobId stream off lim = .err .JOB_NOT_FOUND) ∧
    (∀ job, lookupJob jobs jobId = some job → stream ≠ "stdout" → stream ≠ "stderr" →
      getJobLogs jobs fsys jobId stream off lim = .err .INVALID_ARGS) ∧
    (∀ job, lookupJob jobs jobId = some job → stream = "stdout" ∨ stream = "stderr" →
      ∃ nx tot tr d, getJobLogs jobs fsys jobId stream off lim
        = .page (sanitizeOffset off) nx tot tr d ∧
        d.length ≤ min (sanitizeLimit lim) (1024 * 1024)) ∧
    (sanitizeOffset .nonInt = 0) ∧
    (∀ n : Int, n < 0 → sanitizeOffset (.int n) = 0) ∧
    (sanitizeLimit .nonInt = 65536) ∧
    (∀ n : Int, n ≤ 0 → sanitizeLimit (.int n) = 65536) ∧
    (∀ jn, min (sanitizeLimit jn) (1024 * 1024) ≤ 1024 * 1024) := by
  refine ⟨?_, ?_, ?_, rfl, ?_, rfl, ?_, ?_⟩
  · intro h
    simp [getJobLogs, h]
  · intro job hjob h1 h2
    simp [getJobLogs, hjob, h1, h2]
  · intro job hjob hstream
    have hcond : ¬ (stream ≠ "stdout" ∧ stream ≠ "stderr") := by
      rcases hstream with h | h <;> simp [h]
    rcases href : refOf stream job with _ | r
    · exact ⟨sanitizeOffset off, 0, truncOf stream job, [],
        by simp [getJobLogs, hjob, hcond, href], by simp⟩
    · rcases hf : fsys r with _ | content
      · exact ⟨sanitizeOffset off, 0, truncOf stream job, [],
          by simp [getJobLogs, hjob, hcond, href, hf], by simp⟩
      · by_cases hle : content.length ≤ sanitizeOffset off
        · exact ⟨sanitizeOffset off, content.length, truncOf stream job, [],
            by simp [getJobLogs, hjob, hcond, href, hf, hle], by simp⟩
        · refine ⟨sanitizeOffset off +
              ((content.drop (sanitizeOffset off)).take
                (min (min (sanitizeLimit lim) (1024 * 1024))
                  (content.length - sanitizeOffset off))).length,
            content.length, truncOf stream job,
            (content.drop (sanitizeOffset off)).take
              (min (min (sanitizeLimit lim) (1024 * 1024))
                (content.length - sanitizeOffset off)), ?_, ?_⟩
          · simp [getJobLogs, hjob, hcond, href, hf, hle]
          · simp only [List.length_take, List.length_drop]
            omega
  · intro n hn
    have : ¬ 0 ≤ n := by omega
    simp [sanitizeOffset, this]
  · intro n hn
    have : ¬ 0 < n := by omega
    simp [sanitizeLimit, this]
  · intro jn
    exact min_le_right _ _

theorem getJobLogs_total_sanitized_witness :
    (getJobLogs demoJobs demoFs 2 "stdout" .nonInt .nonInt = .err .JOB_NOT_FOUND) ∧
    (getJobLogs demoJobs demoFs 1 "weird" .nonInt .nonInt = .err .INVALID_ARGS) ∧
    (∃ nx tot tr d, getJobLogs demoJobs demoFs 1 "stdout" (.int (-3)) .nonInt
      = .page (sanitizeOffset (.int (-3))) nx tot tr d ∧
      d.length ≤ min (sanitizeLimit .nonInt) (1024 * 1024)) ∧
    sanitizeOffset (.int (-3)) = 0 :=
  ⟨(getJobLogs_total_sanitized demoJobs demoFs 2 "stdout" .nonInt .nonInt).1 rfl,
   (getJobLogs_total_sanitized demoJobs demoFs 1 "weird" .nonInt .nonInt).2.1
     demoJob rfl (by decide) (by decide),
   (getJobLogs_total_sanitized demoJobs demoFs 1 "stdout" (.int (-3)) .nonInt).2.2.1
     demoJob rfl (Or.inl rfl),
   (getJobLogs_total_sanitized demoJobs demoFs 1 "stdout" (.int (-3)) .nonInt).2.2.2.2.1
     (-3) (by decide)⟩

/-! ### Invariants of the scheduler state -/

@[simp] theorem markCanceledQueued_jobId (t : Nat) (j : Job) :
    (markCanceledQueued t j).jobId = j.jobId := rfl

@[simp] theorem markCanceledQueued_status (t : Nat) (j : Job) :
    (markCanceledQueued t j).status = .canceled := rfl

@[simp] theorem markCanceledQueued_hasChild (t : Nat) (j : Job) :
    (markCanceledQueued t j).hasChild = j.hasChild := rfl

@[simp] theorem markCanceledQueued_finished (t : Nat) (j : Job) :
    (markCanceledQueued t j).finished = j.finished := rfl

@[simp] theorem markCanceledQueued_cancelRequested (t : Nat) (j : Job) :
    (markCanceledQueued t j).cancelRequested = j.cancelRequested := rfl

@[simp] theorem markRunning_jobId (t : Nat) (j : Job) :
    (markRunning t j).jobId = j.jobId := rfl

@[simp] theorem markRunning_status (t : Nat) (j : Job) :
    (markRunning t j).status = .running := rfl

@[simp] theorem markRunning_hasChild (t : Nat) (j : Job) :
    (markRunning t j).hasChild = true := rfl

@[simp] theorem markRunning_finished (t : Nat) (j : Job) :
    (markRunning t j).finished = false := rfl

/-- Per-job sanity of the job map: ids are below the id source, a job
with a live unfinished child is `running`, and a finished executor slot
belongs to a terminal job. -/
def JobsOK (N : Nat) (jobs : List Job) : Prop :=
  ∀ j ∈ jobs, j.jobId < N ∧
    (j.hasChild = true → j.finished = false → j.status = .running) ∧
    (j.finished = true → j.status.isTerminal = true)

/-- Sanity of the queue: every queued entry refers to a known job that
has no spawned child and is either still `queued`, or was canceled
while queued (in which case `cancelJob` already stamped the terminal
fields). -/
def QueueOK (jobs : List Job) (queue : List Nat) : Prop :=
  ∀ jid ∈ queue, ∃ j, lookupJob jobs jid = some j ∧ j.hasChild = false ∧
    (j.status = .queued ∨
      (j.status = .canceled ∧ j.cancelRequested = true ∧ j.code = some (-1) ∧
        j.durationMs = some 0))

/-- The global state invariant maintained by every runner operation. -/
structure Inv (maxC : Nat) (s : RState) : Prop where
  nodupIds : (s.jobs.map Job.jobId).Nodup
  rcCount : s.runningCount = countRunning s.jobs
  rcLe : s.runningCount ≤ maxC
  jobsOK : JobsOK s.nextId s.jobs
  queueOK : QueueOK s.jobs s.queue
  queueNodup : s.queue.Nodup

theorem drainGo_inv (maxC t N : Nat) :
    ∀ (queue : List Nat), ∀ (jobs : List Job) (rc : Nat) (store : List StoredJob),
      rc = countRunning jobs → rc ≤ maxC →
      (jobs.map Job.jobId).Nodup →
      JobsOK N jobs → QueueOK jobs queue → queue.Nodup →
      ((drainGo maxC t queue jobs rc store).rc
          = countRunning (drainGo maxC t queue jobs rc store).jobs ∧
        (drainGo maxC t queue jobs rc store).rc ≤ maxC ∧
        ((drainGo maxC t queue jobs rc store).jobs.map Job.jobId).Nodup ∧
        JobsOK N (drainGo maxC t queue jobs rc store).jobs ∧
        QueueOK (drainGo maxC t queue jobs rc store).jobs
          (drainGo maxC t queue jobs rc store).queue ∧
        (drainGo maxC t queue jobs rc store).queue.Nodup) := by
  intro queue
  induction queue with
  | nil =>
    intro jobs rc store h1 h2 h3 h4 h5 h6
    simp only [drainGo]
    exact ⟨h1, h2, h3, h4, fun jid hjid => absurd hjid (by simp), by simp⟩
  | cons jid rest ih =>
    intro jobs rc store h1 h2 h3 h4 h5 h6
    obtain ⟨hj, hlook, hchild, hstat⟩ := h5 jid (by simp)
    have hid : hj.jobId = jid := (lookupJob_mem hlook).2
    have hjmem : hj ∈ jobs := (lookupJob_mem hlook).1
    have hrestQ : ∀ jid' ∈ rest, jid' ∈ jid :: rest := fun jid' hgg => by simp [hgg]
    have hnotin : jid ∉ rest := (List.nodup_cons.mp h6).1
    have hrestN : rest.Nodup := (List.nodup_cons.mp h6).2
    by_cases hrc : rc < maxC
    · simp only [drainGo, if_pos hrc, hlook]
      by_cases hcr : hj.cancelRequested = true
      · rw [if_pos hcr]
        have hnr : ¬ hj.status = .running := by
          rcases hstat with hq | hc
          · rw [hq]
            intro hh
            cases hh
          · rw [hc.1]
            intro hh
            cases hh
        have hcount := countRunning_updateJob (markCanceledQueued t hj) hlook
        rw [if_neg hnr] at hcount
        have hmark : ¬ (markCanceledQueued t hj).status = .running := by
          simp
        rw [if_neg hmark] at hcount
        refine ih (updateJob jobs jid (markCanceledQueued t hj)) rc _ (by omega) h2 ?_ ?_ ?_ hrestN
        · rw [ids_updateJob (by simp [hid])]
          exact h3
        · intro j' hj'
          rcases mem_updateJob hj' with hj' | hj'
          · subst hj'
            refine ⟨by simpa using (h4 hj hjmem).1, ?_, ?_⟩
            · intro hhc
              rw [markCanceledQueued_hasChild] at hhc
              rw [hhc] at hchild
              cases hchild
            · intro _
              rfl
          · exact h4 j' hj'
        · intro jid' hjid'
          obtain ⟨j₂, hl₂, hc₂, hs₂⟩ := h5 jid' (hrestQ jid' hjid')
          have hne : jid' ≠ jid := fun hh => hnotin (hh ▸ hjid')
          exact ⟨j₂, by rw [lookupJob_update_ne (by simp [hid]) hne]; exact hl₂, hc₂, hs₂⟩
      · rw [if_neg hcr]
        have hq : hj.status = .queued := by
          rcases hstat with hq | hc
          · exact hq
          · exact absurd hc.2.1 hcr
        have hnr : ¬ hj.status = .running := by
          rw [hq]
          intro hh
          cases hh
        have hcount := countRunning_updateJob (markRunning t hj) hlook
        rw [if_neg hnr] at hcount
        rw [if_pos (markRunning_status t hj)] at hcount
        refine ih (updateJob jobs jid (markRunning t hj)) (rc + 1) _ (by omega)
          (by omega) ?_ ?_ ?_ hrestN
        · rw [ids_updateJob (by simp [hid])]
          exact h3
        · intro j' hj'
          rcases mem_updateJob hj' with hj' | hj'
          · subst hj'
            refine ⟨by simpa using (h4 hj hjmem).1, fun _ _ => rfl, ?_⟩
            intro hfin
            rw [markRunning_finished] at hfin
            cases hfin
          · exact h4 j' hj'
        · intro jid' hjid'
          obtain ⟨j₂, hl₂, hc₂, hs₂⟩ := h5 jid' (hrestQ jid' hjid')
          have hne : jid' ≠ jid := fun hh => hnotin (hh ▸ hjid')
          exact ⟨j₂, by rw [lookupJob_update_ne (by simp [hid]) hne]; exact hl₂, hc₂, hs₂⟩
    · simp only [drainGo, if_neg hrc]
      exact ⟨h1, h2, h3, h4, h5, h6⟩

/-! ### Terminal jobs under the drain loop -/

/-- A job with its `endedAt` field erased: two jobs with equal shapes
agree on every field except possibly `endedAt`. -/
def jobShape (j : Job) : Job := { j with endedAt := none }

@[simp] theorem jobShape_status (j : Job) : (jobShape j).status = j.status := rfl

@[simp] theorem jobShape_cancelRequested (j : Job) :
    (jobShape j).cancelRequested = j.cancelRequested := rfl

theorem drainGo_terminal_preserved (maxC t : Nat) :
    ∀ (queue : List Nat), ∀ (jobs : List Job) (rc : Nat) (store : List StoredJob),
      (jobs.map Job.jobId).Nodup → QueueOK jobs queue → queue.Nodup →
      ∀ j ∈ jobs, j.status.isTerminal = true →
      ∃ j', j' ∈ (drainGo maxC t queue jobs rc store).jobs ∧
        jobShape j' = jobShape j ∧
        (j'.endedAt ≠ j.endedAt →
          j.status = .canceled ∧ j.cancelRequested = true ∧ j'.endedAt = some t) := by
  intro queue
  induction queue with
  | nil =>
    intro jobs rc store _ _ _ j hj _
    exact ⟨j, by simpa [drainGo] using hj, rfl, fun hne => absurd rfl hne⟩
  | cons jid rest ih =>
    intro jobs rc store h3 h5 h6 j hj hterm
    obtain ⟨hjq, hlook, hchild, hstat⟩ := h5 jid (by simp)
    have hid : hjq.jobId = jid := (lookupJob_mem hlook).2
    have hnotin : jid ∉ rest := (List.nodup_cons.mp h6).1
    have hrestN : rest.Nodup := (List.nodup_cons.mp h6).2
    have hrestQ : ∀ jid' ∈ rest, jid' ∈ jid :: rest := fun jid' hgg => by simp [hgg]
    by_cases hrc : rc < maxC
    · simp only [drainGo, if_pos hrc, hlook]
      by_cases hcr : hjq.cancelRequested = true
      · rw [if_pos hcr]
        have hnodup' : ((updateJob jobs jid (markCanceledQueued t hjq)).map Job.jobId).Nodup := by
          rw [ids_updateJob (by simp [hid])]
          exact h3
        have hqok' : QueueOK (updateJob jobs jid (markCanceledQueued t hjq)) rest := by
          intro jid' hjid'
          obtain ⟨j₂, hl₂, hc₂, hs₂⟩ := h5 jid' (hrestQ jid' hjid')
          have hne : jid' ≠ jid := fun hh => hnotin (hh ▸ hjid')
          exact ⟨j₂, by rw [lookupJob_update_ne (by simp [hid]) hne]; exact hl₂, hc₂, hs₂⟩
        by_cases hjid : j.jobId = jid
        · have hjj : j = hjq := by
            have hx := lookupJob_of_mem_nodup h3 hj
            rw [hjid, hlook] at hx
            exact (Option.some.inj hx).symm
          subst hjj
          have hcanc : j.status = .canceled := by
            rcases hstat with hq | hc
            · rw [hq] at hterm
              simp [Status.isTerminal] at hterm
            · exact hc.1
          rcases hstat with hq | ⟨_, _, hcode, hdur⟩
          · rw [hq] at hterm
            simp [Status.isTerminal] at hterm
          have hshape : jobShape (markCanceledQueued t j) = jobShape j := by
            simp [jobShape, markCanceledQueued, hcanc, hcode, hdur]
          have hmem' : markCanceledQueued t j ∈ updateJob jobs jid (markCanceledQueued t j) :=
            (lookupJob_mem (lookupJob_update_self hlook (by simp [hid]))).1
          obtain ⟨j'', hmem'', hshape'', hend''⟩ :=
            ih (updateJob jobs jid (markCanceledQueued t j)) rc _ hnodup' hqok' hrestN
              (markCanceledQueued t j) hmem' rfl
          refine ⟨j'', hmem'', hshape''.trans hshape, ?_⟩
          intro _
          refine ⟨hcanc, hcr, ?_⟩
          by_cases hEnd : j''.endedAt = (markCanceledQueued t j).endedAt
          · exact hEnd
          · exact (hend'' hEnd).2.2
        · have hmem' : j ∈ updateJob jobs jid (markCanceledQueued t hjq) :=
            mem_updateJob_of_ne hj hjid
          exact ih (updateJob jobs jid (markCanceledQueued t hjq)) rc _ hnodup' hqok'
            hrestN j hmem' hterm
      · rw [if_neg hcr]
        have hq : hjq.status = .queued := by
          rcases hstat with hq | hc
          · exact hq
          · exact absurd hc.2.1 hcr
        have hnodup' : ((updateJob jobs jid (markRunning t hjq)).map Job.jobId).Nodup := by
          rw [ids_updateJob (by simp [hid])]
          exact h3
        have hqok' : QueueOK (updateJob jobs jid (markRunning t hjq)) rest := by
          intro jid' hjid'
          obtain ⟨j₂, hl₂, hc₂, hs₂⟩ := h5 jid' (hrestQ jid' hjid')
          have hne : jid' ≠ jid := fun hh => hnotin (hh ▸ hjid')
          exact ⟨j₂, by rw [lookupJob_update_ne (by simp [hid]) hne]; exact hl₂, hc₂, hs₂⟩
        have hjid : j.jobId ≠ jid := by
          intro hh
          have hx := lookupJob_of_mem_nodup h3 hj
          rw [hh, hlook] at hx
          have hjj := Option.some.inj hx
          rw [← hjj, hq] at hterm
          simp [Status.isTerminal] at hterm
        have hmem' : j ∈ updateJob jobs jid (markRunning t hjq) :=
          mem_updateJob_of_ne hj hjid
        exact ih (updateJob jobs jid (markRunning t hjq)) (rc + 1) _ hnodup' hqok'
          hrestN j hmem' hterm
    · simp only [drainGo, if_neg hrc]
      exact ⟨j, hj, rfl, fun hne => absurd rfl hne⟩

/-! ### The invariant at construction time -/

theorem status_cases (st : Status) (h : st.isTerminal = false) :
    st = .queued ∨ st = .running := by
  cases st <;> simp_all [Status.isTerminal]

theorem isTerminal_ne_running {st : Status} (h : st.isTerminal = true) :
    st ≠ .running := by
  cases st <;> simp_all [Status.isTerminal]

theorem classifyExit_terminal (t c sg : Bool) (code : Option Int) :
    (classifyExit t c sg code).1.isTerminal = true := by
  cases t <;> cases c <;> cases sg <;>
    · by_cases hc : code = some 0 <;> simp [classifyExit, hc, Status.isTerminal]

theorem nodup_concat {α : Type} (l : List α) (x : α) (h : l.Nodup) (hx : x ∉ l) :
    (l ++ [x]).Nodup := by
  induction l with
  | nil => simp
  | cons a rest ih =>
    rcases List.nodup_cons.mp h with ⟨ha, hr⟩
    have hx' : x ∉ rest := fun hh => hx (by simp [hh])
    have hax : a ≠ x := fun hh => hx (by simp [hh])
    refine List.nodup_cons.mpr ⟨?_, ih hr hx'⟩
    intro hmem
    rcases List.mem_append.mp hmem with hh | hh
    · exact ha hh
    · simp at hh
      exact hax hh

theorem foldl_max_le_init (l : List Job) :
    ∀ a : Nat, a ≤ l.foldl (fun m j => max m j.jobId) a := by
  induction l with
  | nil => intro a; exact Nat.le_refl a
  | cons b rest ih =>
    intro a
    exact le_trans (Nat.le_max_left a b.jobId) (ih (max a b.jobId))

theorem le_foldl_max (l : List Job) :
    ∀ (a : Nat) (j : Job), j ∈ l → j.jobId ≤ l.foldl (fun m j => max m j.jobId) a := by
  induction l with
  | nil =>
    intro a j hj
    simp at hj
  | cons b rest ih =>
    intro a j hj
    rcases List.mem_cons.mp hj with hj | hj
    · subst hj
      exact le_trans (Nat.le_max_right a j.jobId) (foldl_max_le_init rest _)
    · exact ih _ j hj

theorem le_maxIdOf {jobs : List Job} {j : Job} (hj : j ∈ jobs) :
    j.jobId ≤ maxIdOf jobs :=
  le_foldl_max jobs 0 j hj

theorem loadOne_status_not_running (now : Nat) (r : StoredJob) :
    (loadOne now r).status ≠ .running := by
  unfold loadOne
  split
  · intro hh
    cases hh
  · rename_i hnr
    intro hh
    exact hnr (Or.inr hh)

theorem loadJobs_flags {now : Nat} {entries : List (Option StoredJob)} {j : Job}
    (hj : j ∈ loadJobsFromDisk now entries) :
    j.status ≠ .running ∧ j.hasChild = false ∧ j.finished = false := by
  rcases (loadJobs_recovery now).2.2.2 entries j hj with ⟨r, _, hjr⟩
  subst hjr
  exact ⟨loadOne_status_not_running now r, rfl, rfl⟩

theorem upsertJob_nodup {acc : List Job} {j : Job}
    (h : (acc.map Job.jobId).Nodup) : ((upsertJob acc j).map Job.jobId).Nodup := by
  by_cases hl : (lookupJob acc j.jobId).isSome
  · rw [upsertJob, if_pos hl, ids_updateJob rfl]
    exact h
  · rw [upsertJob, if_neg hl, List.map_append]
    refine nodup_concat _ _ h ?_
    have hnone : lookupJob acc j.jobId = none := by
      cases hopt : lookupJob acc j.jobId with
      | none => rfl
      | some v =>
        rw [hopt] at hl
        simp at hl
    simpa using lookupJob_eq_none_iff.mp hnone

theorem loadJobs_nodup (now : Nat) :
    ∀ (entries : List (Option StoredJob)) (acc : List Job),
      (acc.map Job.jobId).Nodup → ((loadJobs now entries acc).map Job.jobId).Nodup := by
  intro entries
  induction entries with
  | nil =>
    intro acc h
    exact h
  | cons e rest ih =>
    intro acc h
    cases e with
    | none => exact ih acc h
    | some r => exact ih _ (upsertJob_nodup h)

theorem inv_init (maxC t0 : Nat) (entries : List (Option StoredJob)) :
    Inv maxC (initState entries t0) := by
  refine ⟨?_, ?_, ?_, ?_, ?_, ?_⟩
  · exact loadJobs_nodup t0 entries [] (by simp)
  · exact (countRunning_eq_zero fun j hj => (loadJobs_flags hj).1).symm
  · exact Nat.zero_le maxC
  · intro j hj
    refine ⟨?_, ?_, ?_⟩
    · exact Nat.lt_succ_of_le (le_maxIdOf hj)
    · intro hc
      rw [(loadJobs_flags hj).2.1] at hc
      cases hc
    · intro hf
      rw [(loadJobs_flags hj).2.2] at hf
      cases hf
  · intro jid hjid
    simp [initState] at hjid
  · simp [initState]

/-! ### Invariant preservation by each runner operation -/

@[simp] theorem mkJob_jobId (jid sid : Nat) (args : List String) (m : Mode) (t : Nat) :
    (mkJob jid sid args m t).jobId = jid := rfl

@[simp] theorem mkJob_status (jid sid : Nat) (args : List String) (m : Mode) (t : Nat) :
    (mkJob jid sid args m t).status = .queued := rfl

@[simp] theorem mkJob_hasChild (jid sid : Nat) (args : List String) (m : Mode) (t : Nat) :
    (mkJob jid sid args m t).hasChild = false := rfl

@[simp] theorem mkJob_finished (jid sid : Nat) (args : List String) (m : Mode) (t : Nat) :
    (mkJob jid sid args m t).finished = false := rfl

theorem inv_drain {maxC : Nat} {s : RState} (hinv : Inv maxC s) (t : Nat) :
    Inv maxC (drain maxC s t) := by
  obtain ⟨hnd, hrc, hle, hok, hqok, hqnd⟩ := hinv
  have h := drainGo_inv maxC t s.nextId s.queue s.jobs s.runningCount s.store
    hrc hle hnd hok hqok hqnd
  exact ⟨h.2.2.1, h.1, h.2.1, h.2.2.2.1, h.2.2.2.2.1, h.2.2.2.2.2⟩

/-- The state after `createJob` + `enqueue` (before the synchronous
`drainQueue` triggered by `enqueue`). -/
def submitState (cfg : Config) (s : RState) (script : Script) (strArgs : List String)
    (m : Option Mode) (t : Nat) : RState :=
  { s with
    jobs := s.jobs ++ [mkJob s.nextId script.id strArgs (resolveMode cfg.defaultMode script m) t]
    nextId := s.nextId + 1
    store := persistList
      (s.jobs ++ [mkJob s.nextId script.id strArgs (resolveMode cfg.defaultMode script m) t])
    queue := s.queue ++ [s.nextId] }

theorem submitRun_snd_invalid {cfg : Config} {s : RState} {sid : Nat}
    {args : Option (List ArgVal)} {m : Option Mode} {t : Nat} {c : ErrCode}
    (hv : validateRequest cfg.scripts sid args = .invalid c) :
    (submitRun cfg s sid args m t).2 = s := by
  simp [submitRun, hv]

theorem submitRun_snd_valid {cfg : Config} {s : RState} {sid : Nat}
    {args : Option (List ArgVal)} {m : Option Mode} {t : Nat}
    {script : Script} {strArgs : List String}
    (hv : validateRequest cfg.scripts sid args = .valid script strArgs) :
    (submitRun cfg s sid args m t).2
      = drain cfg.maxConcurrent (submitState cfg s script strArgs m t) t := by
  simp [submitRun, hv, submitState]

theorem inv_submitState {maxC : Nat} {cfg : Config} {s : RState} (hinv : Inv maxC s)
    (script : Script) (strArgs : List String) (m : Option Mode) (t : Nat) :
    Inv maxC (submitState cfg s script strArgs m t) := by
  obtain ⟨hnd, hrc, hle, hok, hqok, hqnd⟩ := hinv
  have hfresh : ∀ j ∈ s.jobs, j.jobId < s.nextId := fun j hj => (hok j hj).1
  have hnid_notin : s.nextId ∉ s.jobs.map Job.jobId := by
    intro hmem
    rcases List.mem_map.mp hmem with ⟨j, hj, hjid⟩
    have := hfresh j hj
    omega
  have hnone : lookupJob s.jobs s.nextId = none := lookupJob_eq_none_iff.mpr hnid_notin
  refine ⟨?_, ?_, ?_, ?_, ?_, ?_⟩
  · rw [show (submitState cfg s script strArgs m t).jobs
        = s.jobs ++ [mkJob s.nextId script.id strArgs (resolveMode cfg.defaultMode script m) t]
      from rfl, List.map_append]
    exact nodup_concat _ _ hnd (by simpa using hnid_notin)
  · rw [show (submitState cfg s script strArgs m t).jobs
        = s.jobs ++ [mkJob s.nextId script.id strArgs (resolveMode cfg.defaultMode script m) t]
      from rfl, countRunning_append]
    have : countRunning [mkJob s.nextId script.id strArgs (resolveMode cfg.defaultMode script m) t]
        = 0 := by
      simp [countRunning]
    rw [this]
    simpa using hrc
  · exact hle
  · intro j hj
    rcases List.mem_append.mp hj with hj | hj
    · obtain ⟨h1, h2, h3⟩ := hok j hj
      exact ⟨by simp [submitState]; omega, h2, h3⟩
    · simp at hj
      subst hj
      refine ⟨by simp [submitState], ?_, ?_⟩
      · intro hc
        rw [mkJob_hasChild] at hc
        cases hc
      · intro hf
        rw [mkJob_finished] at hf
        cases hf
  · intro jid hjid
    rcases List.mem_append.mp hjid with hjid | hjid
    · obtain ⟨j2, hl2, hc2, hs2⟩ := hqok jid hjid
      exact ⟨j2, lookupJob_append_left hl2, hc2, hs2⟩
    · simp at hjid
      subst hjid
      refine ⟨mkJob s.nextId script.id strArgs (resolveMode cfg.defaultMode script m) t,
        ?_, rfl, Or.inl rfl⟩
      rw [show (submitState cfg s script strArgs m t).jobs
          = s.jobs ++ [mkJob s.nextId script.id strArgs (resolveMode cfg.defaultMode script m) t]
        from rfl, lookupJob_append_right hnone]
      simp [lookupJob]
  · refine nodup_concat _ _ hqnd ?_
    intro hmem
    obtain ⟨j2, hl2, _, _⟩ := hqok _ hmem
    have h2lt := hfresh j2 (lookupJob_mem hl2).1
    have h2id := (lookupJob_mem hl2).2
    omega

theorem inv_submit {maxC : Nat} {cfg : Config} (hmc : cfg.maxConcurrent = maxC)
    {s : RState} (hinv : Inv maxC s) (sid : Nat) (args : Option (List ArgVal))
    (m : Option Mode) (t : Nat) :
    Inv maxC (submitRun cfg s sid args m t).2 := by
  cases hv : validateRequest cfg.scripts sid args with
  | invalid c =>
    rw [submitRun_snd_invalid hv]
    exact hinv
  | valid script strArgs =>
    rw [submitRun_snd_valid hv, hmc]
    exact inv_drain (inv_submitState hinv script strArgs m t) t

theorem inv_update_running {maxC : Nat} {s : RState} {jid : Nat} {j j' : Job}
    (hinv : Inv maxC s) (h : lookupJob s.jobs jid = some j)
    (hid' : j'.jobId = jid) (hstat : j'.status = j.status)
    (hrun : j.status = .running)
    (hchild' : j'.hasChild = j.hasChild) (hfin' : j'.finished = j.finished) :
    Inv maxC { s with jobs := updateJob s.jobs jid j' } := by
  obtain ⟨hnd, hrc, hle, hok, hqok, hqnd⟩ := hinv
  have hjmem := (lookupJob_mem h).1
  have hid := (lookupJob_mem h).2
  refine ⟨?_, ?_, hle, ?_, ?_, hqnd⟩
  · rw [show ({ s with jobs := updateJob s.jobs jid j' } : RState).jobs
        = updateJob s.jobs jid j' from rfl, ids_updateJob hid']
    exact hnd
  · have hcount := countRunning_updateJob j' h
    rw [hstat] at hcount
    show s.runningCount = countRunning (updateJob s.jobs jid j')
    by_cases hjr : j.status = Status.running
    · simp only [if_pos hjr] at hcount
      omega
    · simp only [if_neg hjr] at hcount
      omega
  · intro j₂ hj₂
    rcases mem_updateJob hj₂ with hj₂ | hj₂
    · subst hj₂
      refine ⟨?_, fun _ _ => hstat.trans hrun, ?_⟩
      · rw [hid']
        rw [← hid]
        exact (hok j hjmem).1
      · intro hf
        rw [hfin'] at hf
        have := (hok j hjmem).2.2 hf
        rw [hrun] at this
        simp [Status.isTerminal] at this
    · exact hok j₂ hj₂
  · intro jid' hjid'
    obtain ⟨j₂, hl₂, hc₂, hs₂⟩ := hqok jid' hjid'
    have hne : jid' ≠ jid := by
      intro hh
      subst hh
      rw [h] at hl₂
      have := Option.some.inj hl₂
      subst this
      rcases hs₂ with hq | hc
      · rw [hrun] at hq
        cases hq
      · rw [hrun] at hc
        cases hc.1
    exact ⟨j₂, by rw [show ({ s with jobs := updateJob s.jobs jid j' } : RState).jobs
        = updateJob s.jobs jid j' from rfl, lookupJob_update_ne hid' hne]; exact hl₂,
      hc₂, hs₂⟩

theorem queued_no_child {maxC : Nat} {s : RState} {j : Job} (hinv : Inv maxC s)
    (hjmem : j ∈ s.jobs) (hq : j.status = .queued) :
    j.hasChild = false ∧ j.finished = false := by
  have hok := hinv.jobsOK j hjmem
  have hfin : j.finished = false := by
    cases hfb : j.finished
    · rfl
    · have := hok.2.2 hfb
      rw [hq] at this
      simp [Status.isTerminal] at this
  refine ⟨?_, hfin⟩
  cases hcb : j.hasChild
  · rfl
  · have := hok.2.1 hcb hfin
    rw [hq] at this
    cases this

theorem inv_cancel {maxC : Nat} {s : RState} (hinv : Inv maxC s) (jid t : Nat) :
    Inv maxC (cancelJob s jid t).2 := by
  rcases h : lookupJob s.jobs jid with _ | j
  · rw [cancelJob_none t h]
    exact hinv
  · have hid := (lookupJob_mem h).2
    have hjmem := (lookupJob_mem h).1
    by_cases hterm : j.status.isTerminal = true
    · rw [cancelJob_terminal t h hterm]
      exact hinv
    · by_cases hrun : j.status = .running ∧ j.hasChild = true
      · rw [cancelJob_running t h hrun.1 hrun.2 rfl]
        exact inv_update_running hinv h hid rfl hrun.1 rfl rfl
      · by_cases hq : j.status = .queued
        · rw [cancelJob_queued t h hq rfl]
          obtain ⟨hnch, hnfin⟩ := queued_no_child hinv hjmem hq
          obtain ⟨hnd, hrc, hle, hok, hqok, hqnd⟩ := hinv
          have hsid : (cancelStamp t j).jobId = jid := by
            rw [cancelStamp_jobId]
            exact hid
          refine ⟨?_, ?_, hle, ?_, ?_, hqnd⟩
          · show (List.map Job.jobId (updateJob s.jobs jid (cancelStamp t j))).Nodup
            rw [ids_updateJob hsid]
            exact hnd
          · have hcount := countRunning_updateJob (cancelStamp t j) h
            have hn1 : ¬ j.status = Status.running := by
              rw [hq]
              intro hh
              cases hh
            have hn2 : ¬ (cancelStamp t j).status = Status.running := by
              rw [cancelStamp_status]
              intro hh
              cases hh
            rw [if_neg hn1, if_neg hn2] at hcount
            show s.runningCount = countRunning (updateJob s.jobs jid (cancelStamp t j))
            omega
          · intro j₂ hj₂
            rcases mem_updateJob hj₂ with hj₂ | hj₂
            · subst hj₂
              refine ⟨?_, ?_, fun _ => rfl⟩
              · rw [cancelStamp_jobId]
                exact (hok j hjmem).1
              · intro hc
                rw [cancelStamp_hasChild, hnch] at hc
                cases hc
            · exact hok j₂ hj₂
          · intro jid' hjid'
            by_cases hne : jid' = jid
            · subst hne
              refine ⟨cancelStamp t j, ?_, ?_, Or.inr ⟨rfl, rfl, rfl, rfl⟩⟩
              · exact lookupJob_update_self h hsid
              · rw [cancelStamp_hasChild]
                exact hnch
            · obtain ⟨j₂, hl₂, hc₂, hs₂⟩ := hqok jid' hjid'
              refine ⟨j₂, ?_, hc₂, hs₂⟩
              show lookupJob (updateJob s.jobs jid (cancelStamp t j)) jid' = some j₂
              rw [lookupJob_update_ne hsid hne]
              exact hl₂
        · rw [cancelJob_other t h hterm hrun hq rfl]
          have hr : j.status = .running := by
            rcases status_cases j.status (by simpa using hterm) with hh | hh
            · exact absurd hh hq
            · exact hh
          exact inv_update_running hinv h hid rfl hr rfl rfl

@[simp] theorem finishStamp_jobId (st : Status) (code : Int) (t : Nat) (j : Job) :
    (finishStamp st code t j).jobId = j.jobId := rfl

@[simp] theorem finishStamp_status (st : Status) (code : Int) (t : Nat) (j : Job) :
    (finishStamp st code t j).status = st := rfl

@[simp] theorem finishStamp_finished (st : Status) (code : Int) (t : Nat) (j : Job) :
    (finishStamp st code t j).finished = true := rfl

@[simp] theorem finishStamp_hasChild (st : Status) (code : Int) (t : Nat) (j : Job) :
    (finishStamp st code t j).hasChild = j.hasChild := rfl

theorem finishJobState_active {maxC : Nat} {s : RState} {jid : Nat} {j : Job}
    (st : Status) (code : Int) (t : Nat)
    (h : lookupJob s.jobs jid = some j) (hfin : j.finished = false) :
    finishJobState maxC s jid st code t
      = drain maxC
          { s with
            jobs := updateJob s.jobs jid (finishStamp st code t j)
            runningCount := s.runningCount - 1
            store := persistList (updateJob s.jobs jid (finishStamp st code t j)) } t := by
  simp [finishJobState, h, hfin]

theorem inv_finish {maxC : Nat} {s : RState} (hinv : Inv maxC s) (jid : Nat)
    (st : Status) (code : Int) (t : Nat) (hst : st.isTerminal = true)
    (hchild : ∀ j, lookupJob s.jobs jid = some j → j.hasChild = true) :
    Inv maxC (finishJobState maxC s jid st code t) := by
  rcases h : lookupJob s.jobs jid with _ | j
  · simp only [finishJobState, h]
    exact hinv
  · by_cases hfin : j.finished = true
    · simp only [finishJobState, h, if_pos hfin]
      exact hinv
    · have hfin' : j.finished = false := by
        cases hfb : j.finished
        · rfl
        · exact absurd hfb hfin
      rw [finishJobState_active st code t h hfin']
      refine inv_drain ?_ t
      obtain ⟨hnd, hrc, hle, hok, hqok, hqnd⟩ := hinv
      have hjmem := (lookupJob_mem h).1
      have hid := (lookupJob_mem h).2
      have hch := hchild j h
      have hrun : j.status = .running := (hok j hjmem).2.1 hch hfin'
      have hpos : 1 ≤ countRunning s.jobs := countRunning_pos hjmem hrun
      have hfid : (finishStamp st code t j).jobId = jid := by
        rw [finishStamp_jobId]
        exact hid
      refine ⟨?_, ?_, ?_, ?_, ?_, hqnd⟩
      · show (List.map Job.jobId (updateJob s.jobs jid (finishStamp st code t j))).Nodup
        rw [ids_updateJob hfid]
        exact hnd
      · have hcount := countRunning_updateJob (finishStamp st code t j) h
        have hn2 : ¬ (finishStamp st code t j).status = Status.running := by
          rw [finishStamp_status]
          exact isTerminal_ne_running hst
        rw [if_pos hrun, if_neg hn2] at hcount
        show s.runningCount - 1 = countRunning (updateJob s.jobs jid (finishStamp st code t j))
        omega
      · show s.runningCount - 1 ≤ maxC
        omega
      · intro j₂ hj₂
        rcases mem_updateJob hj₂ with hj₂ | hj₂
        · subst hj₂
          refine ⟨?_, ?_, fun _ => by rw [finishStamp_status]; exact hst⟩
          · rw [finishStamp_jobId]
            exact (hok j hjmem).1
          · intro _ hff
            rw [finishStamp_finished] at hff
            cases hff
        · exact hok j₂ hj₂
      · intro jid' hjid'
        obtain ⟨j₂, hl₂, hc₂, hs₂⟩ := hqok jid' hjid'
        have hne : jid' ≠ jid := by
          intro hh
          subst hh
          rw [h] at hl₂
          have := Option.some.inj hl₂
          subst this
          rw [hch] at hc₂
          cases hc₂
        refine ⟨j₂, ?_, hc₂, hs₂⟩
        show lookupJob (updateJob s.jobs jid (finishStamp st code t j)) jid' = some j₂
        rw [lookupJob_update_ne hfid hne]
        exact hl₂

theorem inv_close {maxC : Nat} {s : RState} (hinv : Inv maxC s) (jid : Nat)
    (sg : Bool) (code : Option Int) (t : Nat) :
    Inv maxC (closeEvent maxC s jid sg code t) := by
  rcases h : lookupJob s.jobs jid with _ | j
  · simp only [closeEvent, h]
    exact hinv
  · by_cases hch : j.hasChild = true
    · simp only [closeEvent, h, if_pos hch]
      exact inv_finish hinv jid _ _ t (classifyExit_terminal _ _ _ _)
        (fun j' hj' => by
          rw [h] at hj'
          cases hj'
          exact hch)
    · simp only [closeEvent, h, if_neg hch]
      exact hinv

theorem inv_childErr {maxC : Nat} {s : RState} (hinv : Inv maxC s) (jid t : Nat) :
    Inv maxC (childErrEvent maxC s jid t) := by
  rcases h : lookupJob s.jobs jid with _ | j
  · simp only [childErrEvent, h]
    exact hinv
  · by_cases hch : j.hasChild = true
    · simp only [childErrEvent, h, if_pos hch]
      exact inv_finish hinv jid .failed (-1) t rfl
        (fun j' hj' => by
          rw [h] at hj'
          cases hj'
          exact hch)
    · simp only [childErrEvent, h, if_neg hch]
      exact hinv

theorem inv_timeout {maxC : Nat} {s : RState} (hinv : Inv maxC s) (jid t : Nat) :
    Inv maxC (timeoutEvent s jid t) := by
  rcases h : lookupJob s.jobs jid with _ | j
  · simp only [timeoutEvent, h]
    exact hinv
  · by_cases hg : (j.hasChild && !j.finished) = true
    · simp only [timeoutEvent, h, if_pos hg]
      have hch : j.hasChild = true := ((Bool.and_eq_true _ _).mp hg).1
      have hnf : j.finished = false := by
        have h2 := ((Bool.and_eq_true _ _).mp hg).2
        simpa using h2
      have hrun := (hinv.jobsOK j (lookupJob_mem h).1).2.1 hch hnf
      exact inv_update_running hinv h ((lookupJob_mem h).2) rfl hrun rfl rfl
    · simp only [timeoutEvent, h, if_neg hg]
      exact hinv

theorem reachable_inv {cfg : Config} {entries : List (Option StoredJob)} {t0 : Nat}
    {s : RState} (h : Reachable cfg entries t0 s) : Inv cfg.maxConcurrent s := by
  induction h with
  | base => exact inv_init cfg.maxConcurrent t0 entries
  | step hs e ih =>
    cases e with
    | submit sid args m t => exact inv_submit rfl ih sid args m t
    | cancel jid t => exact inv_cancel ih jid t
    | close jid sg code t => exact inv_close ih jid sg code t
    | childErr jid t => exact inv_childErr ih jid t
    | timeoutFire jid t => exact inv_timeout ih jid t

/-- C2: at every reachable state of the runner, the number of jobs
whose status is `running` is at most `maxConcurrent`, and the running
counter tracks it exactly: `drainQueue` only admits while
`runningCount < maxConcurrent`, `executeJob` increments the counter
exactly when a job enters `running`, and every terminal transition of
a running job decrements it exactly once. -/
theorem running_le_maxConcurrent {cfg : Config} {entries : List (Option StoredJob)}
    {t0 : Nat} {s : RState} (h : Reachable cfg entries t0 s) :
    countRunning s.jobs ≤ cfg.maxConcurrent ∧
      s.runningCount = countRunning s.jobs := by
  have hinv := reachable_inv h
  exact ⟨hinv.rcCount ▸ hinv.rcLe, hinv.rcCount⟩

theorem running_le_maxConcurrent_witness :
    countRunning (initState [] 0).jobs ≤ demoCfg.maxConcurrent ∧
      (initState [] 0).runningCount = countRunning (initState [] 0).jobs :=
  running_le_maxConcurrent (Reachable.base : Reachable demoCfg [] 0 _)

/-! ### Claim C9: terminal states under subsequent events -/

/-- C9 (amended): once a job is terminal, no subsequent event changes
any of its fields except that `drainQueue`, on dequeuing an entry that
was already canceled while queued, re-stamps its `endedAt` (status,
code and durationMs are re-assigned the same values); in particular
the status itself is absorbing, and a started job's close/error events
are no-ops once the `finished` flag is set. -/
theorem terminal_absorbing_amended {cfg : Config} {entries : List (Option StoredJob)}
    {t0 : Nat} {s : RState} (hreach : Reachable cfg entries t0 s) (e : Event)
    {j : Job} (hj : j ∈ s.jobs) (hterm : j.status.isTerminal = true) :
    ∃ j', j' ∈ (applyEvent cfg s e).jobs ∧ jobShape j' = jobShape j ∧
      (j'.endedAt ≠ j.endedAt → j.status = .canceled ∧ j.cancelRequested = true) := by
  obtain ⟨hnd, hrc, hle, hok, hqok, hqnd⟩ := reachable_inv hreach
  cases e with
  | submit sid args m t =>
    show ∃ j', j' ∈ (submitRun cfg s sid args m t).2.jobs ∧ _
    cases hv : validateRequest cfg.scripts sid args with
    | invalid c =>
      rw [submitRun_snd_invalid hv]
      exact ⟨j, hj, rfl, fun hne => absurd rfl hne⟩
    | valid script strArgs =>
      rw [submitRun_snd_valid hv]
      have hinv' : Inv cfg.maxConcurrent (submitState cfg s script strArgs m t) :=
        inv_submitState ⟨hnd, hrc, hle, hok, hqok, hqnd⟩ script strArgs m t
      have hmem : j ∈ (submitState cfg s script strArgs m t).jobs :=
        List.mem_append.mpr (Or.inl hj)
      obtain ⟨j', hmem', hshape, hend⟩ := drainGo_terminal_preserved cfg.maxConcurrent t
        (submitState cfg s script strArgs m t).queue
        (submitState cfg s script strArgs m t).jobs
        (submitState cfg s script strArgs m t).runningCount
        (submitState cfg s script strArgs m t).store
        hinv'.nodupIds hinv'.queueOK hinv'.queueNodup j hmem hterm
      exact ⟨j', hmem', hshape, fun hne => ⟨(hend hne).1, (hend hne).2.1⟩⟩
  | cancel jid t =>
    show ∃ j', j' ∈ (cancelJob s jid t).2.jobs ∧ _
    rcases h : lookupJob s.jobs jid with _ | jc
    · rw [cancelJob_none t h]
      exact ⟨j, hj, rfl, fun hne => absurd rfl hne⟩
    · by_cases hterm2 : jc.status.isTerminal = true
      · rw [cancelJob_terminal t h hterm2]
        exact ⟨j, hj, rfl, fun hne => absurd rfl hne⟩
      · have hne : j.jobId ≠ jid := by
          intro hh
          have hx := lookupJob_of_mem_nodup hnd hj
          rw [hh, h] at hx
          have hjc := Option.some.inj hx
          rw [← hjc] at hterm
          exact hterm2 hterm
        by_cases hrun : jc.status = .running ∧ jc.hasChild = true
        · rw [cancelJob_running t h hrun.1 hrun.2 rfl]
          exact ⟨j, mem_updateJob_of_ne hj hne, rfl, fun hne' => absurd rfl hne'⟩
        · by_cases hq : jc.status = .queued
          · rw [cancelJob_queued t h hq rfl]
            exact ⟨j, mem_updateJob_of_ne hj hne, rfl, fun hne' => absurd rfl hne'⟩
          · rw [cancelJob_other t h hterm2 hrun hq rfl]
            exact ⟨j, mem_updateJob_of_ne hj hne, rfl, fun hne' => absurd rfl hne'⟩
  | close jid sg code t =>
    show ∃ j', j' ∈ (closeEvent cfg.maxConcurrent s jid sg code t).jobs ∧ _
    rcases h : lookupJob s.jobs jid with _ | jc
    · simp only [closeEvent, h]
      exact ⟨j, hj, rfl, fun hne => absurd rfl hne⟩
    · by_cases hch : jc.hasChild = true
      · simp only [closeEvent, h, if_pos hch]
        by_cases hfin : jc.finished = true
        · simp only [finishJobState, h, if_pos hfin]
          exact ⟨j, hj, rfl, fun hne => absurd rfl hne⟩
        · have hfin' : jc.finished = false := by
            cases hfb : jc.finished
            · rfl
            · exact absurd hfb hfin
          rw [finishJobState_active
            (classifyExit jc.timedOut jc.cancelRequested sg code).1
            (classifyExit jc.timedOut jc.cancelRequested sg code).2 t h hfin']
          have hrun : jc.status = .running := (hok jc (lookupJob_mem h).1).2.1 hch hfin'
          have hne : j.jobId ≠ jid := by
            intro hh
            have hx := lookupJob_of_mem_nodup hnd hj
            rw [hh, h] at hx
            have hjc := Option.some.inj hx
            rw [← hjc, hrun] at hterm
            simp [Status.isTerminal] at hterm
          have hfid : (finishStamp (classifyExit jc.timedOut jc.cancelRequested sg code).1
              (classifyExit jc.timedOut jc.cancelRequested sg code).2 t jc).jobId = jid := by
            rw [finishStamp_jobId]
            exact (lookupJob_mem h).2
          have hnd' : ((updateJob s.jobs jid
              (finishStamp (classifyExit jc.timedOut jc.cancelRequested sg code).1
                (classifyExit jc.timedOut jc.cancelRequested sg code).2 t jc)).map
              Job.jobId).Nodup := by
            rw [ids_updateJob hfid]
            exact hnd
          have hqok' : QueueOK (updateJob s.jobs jid
              (finishStamp (classifyExit jc.timedOut jc.cancelRequested sg code).1
                (classifyExit jc.timedOut jc.cancelRequested sg code).2 t jc)) s.queue := by
            intro jid' hjid'
            obtain ⟨j₂, hl₂, hc₂, hs₂⟩ := hqok jid' hjid'
            have hne2 : jid' ≠ jid := by
              intro hh
              subst hh
              rw [h] at hl₂
              have hx := Option.some.inj hl₂
              rw [← hx, hch] at hc₂
              cases hc₂
            refine ⟨j₂, ?_, hc₂, hs₂⟩
            rw [lookupJob_update_ne hfid hne2]
            exact hl₂
          have hmem' : j ∈ updateJob s.jobs jid
              (finishStamp (classifyExit jc.timedOut jc.cancelRequested sg code).1
                (classifyExit jc.timedOut jc.cancelRequested sg code).2 t jc) :=
            mem_updateJob_of_ne hj hne
          obtain ⟨j', hmem'', hshape, hend⟩ := drainGo_terminal_preserved
            cfg.maxConcurrent t s.queue _ (s.runningCount - 1) _ hnd' hqok' hqnd j hmem' hterm
          exact ⟨j', hmem'', hshape, fun hne' => ⟨(hend hne').1, (hend hne').2.1⟩⟩
      · simp only [closeEvent, h, if_neg hch]
        exact ⟨j, hj, rfl, fun hne => absurd rfl hne⟩
  | childErr jid t =>
    show ∃ j', j' ∈ (childErrEvent cfg.maxConcurrent s jid t).jobs ∧ _
    rcases h : lookupJob s.jobs jid with _ | jc
    · simp only [childErrEvent, h]
      exact ⟨j, hj, rfl, fun hne => absurd rfl hne⟩
    · by_cases hch : jc.hasChild = true
      · simp only [childErrEvent, h, if_pos hch]
        by_cases hfin : jc.finished = true
        · simp only [finishJobState, h, if_pos hfin]
          exact ⟨j, hj, rfl, fun hne => absurd rfl hne⟩
        · have hfin' : jc.finished = false := by
            cases hfb : jc.finished
            · rfl
            · exact absurd hfb hfin
          rw [finishJobState_active .failed (-1) t h hfin']
          have hrun : jc.status = .running := (hok jc (lookupJob_mem h).1).2.1 hch hfin'
          have hne : j.jobId ≠ jid := by
            intro hh
            have hx := lookupJob_of_mem_nodup hnd hj
            rw [hh, h] at hx
            have hjc := Option.some.inj hx
            rw [← hjc, hrun] at hterm
            simp [Status.isTerminal] at hterm
          have hfid : (finishStamp .failed (-1) t jc).jobId = jid := by
            rw [finishStamp_jobId]
            exact (lookupJob_mem h).2
          have hnd' : ((updateJob s.jobs jid (finishStamp .failed (-1) t jc)).map
              Job.jobId).Nodup := by
            rw [ids_updateJob hfid]
            exact hnd
          have hqok' : QueueOK (updateJob s.jobs jid (finishStamp .failed (-1) t jc))
              s.queue := by
            intro jid' hjid'
            obtain ⟨j₂, hl₂, hc₂, hs₂⟩ := hqok jid' hjid'
            have hne2 : jid' ≠ jid := by
              intro hh
              subst hh
              rw [h] at hl₂
              have hx := Option.some.inj hl₂
              rw [← hx, hch] at hc₂
              cases hc₂
            refine ⟨j₂, ?_, hc₂, hs₂⟩
            rw [lookupJob_update_ne hfid hne2]
            exact hl₂
          have hmem' : j ∈ updateJob s.jobs jid (finishStamp .failed (-1) t jc) :=
            mem_updateJob_of_ne hj hne
          obtain ⟨j', hmem'', hshape, hend⟩ := drainGo_terminal_preserved
            cfg.maxConcurrent t s.queue _ (s.runningCount - 1) _ hnd' hqok' hqnd j hmem' hterm
          exact ⟨j', hmem'', hshape, fun hne' => ⟨(hend hne').1, (hend hne').2.1⟩⟩
      · simp only [childErrEvent, h, if_neg hch]
        exact ⟨j, hj, rfl, fun hne => absurd rfl hne⟩
  | timeoutFire jid t =>
    show ∃ j', j' ∈ (timeoutEvent s jid t).jobs ∧ _
    rcases h : lookupJob s.jobs jid with _ | jc
    · simp only [timeoutEvent, h]
      exact ⟨j, hj, rfl, fun hne => absurd rfl hne⟩
    · by_cases hg : (jc.hasChild && !jc.finished) = true
      · simp only [timeoutEvent, h, if_pos hg]
        have hch : jc.hasChild = true := ((Bool.and_eq_true _ _).mp hg).1
        have hnf : jc.finished = false := by
          have h2 := ((Bool.and_eq_true _ _).mp hg).2
          simpa using h2
        have hrun := (hok jc (lookupJob_mem h).1).2.1 hch hnf
        have hne : j.jobId ≠ jid := by
          intro hh
          have hx := lookupJob_of_mem_nodup hnd hj
          rw [hh, h] at hx
          have hjc := Option.some.inj hx
          rw [← hjc, hrun] at hterm
          simp [Status.isTerminal] at hterm
        exact ⟨j, mem_updateJob_of_ne hj hne, rfl, fun hne' => absurd rfl hne'⟩
      · simp only [timeoutEvent, h, if_neg hg]
        exact ⟨j, hj, rfl, fun hne => absurd rfl hne⟩

/-- A reachable state with `maxConcurrent = 1`: job 1 was admitted and
is running, job 2 was submitted behind it and then canceled while
queued (terminal `canceled`, `endedAt = 3`), and job 2 is still
sitting in the scheduler queue. -/
def cexS3 : RState :=
  applyEvent demoCfg
    (applyEvent demoCfg
      (applyEvent demoCfg (initState [] 0) (.submit 1 (some []) none 1))
      (.submit 1 (some []) none 2))
    (.cancel 2 3)

/-- The state after job 1's child exits at time 7: the drain triggered
by `finishJob` pops the already-canceled job 2 and re-stamps its
`endedAt`. -/
def cexS4 : RState := applyEvent demoCfg cexS3 (.close 1 false (some 0) 7)

/-- C9 (counterexample to the claim as stated): in a real reachable
run, job 2 is terminal (`canceled`, with `endedAt = 3`) in `cexS3`,
yet the subsequent child-exit event of job 1 changes job 2's
`endedAt` field to `7` — `drainQueue` re-stamps `endedAt` when it
dequeues an entry that was canceled while queued (`src/runner.js`
lines 231-238), so a terminal job's non-log fields are not fully
absorbing. -/
theorem terminal_absorbing_counterexample :
    Reachable demoCfg [] 0 cexS3 ∧
    (lookupJob cexS3.jobs 2).map Job.status = some .canceled ∧
    (lookupJob cexS3.jobs 2).map Job.endedAt = some (some 3) ∧
    (lookupJob cexS4.jobs 2).map Job.endedAt = some (some 7) := by
  refine ⟨?_, ?_, ?_, ?_⟩
  · exact Reachable.step
      (Reachable.step (Reachable.step Reachable.base (.submit 1 (some []) none 1))
        (.submit 1 (some []) none 2))
      (.cancel 2 3)
  · rfl
  · rfl
  · rfl

theorem terminal_absorbing_amended_witness :
    ∃ j', j' ∈ (applyEvent demoCfg (initState [some demoDoneRec] 0) (.cancel 2 9)).jobs ∧
      jobShape j' = jobShape (toJob (loadOne 0 demoDoneRec)) ∧
      (j'.endedAt ≠ (toJob (loadOne 0 demoDoneRec)).endedAt →
        (toJob (loadOne 0 demoDoneRec)).status = .canceled ∧
        (toJob (loadOne 0 demoDoneRec)).cancelRequested = true) :=
  terminal_absorbing_amended
    (Reachable.base : Reachable demoCfg [some demoDoneRec] 0 _)
    (.cancel 2 9) (by decide) rfl

/-- A state holding a single queued job with id 3. -/
def demoStateQ : RState :=
  { jobs := [mkJob 3 1 [] .sync 0]
    queue := [3]
    runningCount := 0
    nextId := 4
    store := [] }

theorem cancelJob_idempotent_witness :
    cancelJob (cancelJob demoStateQ 3 5).2 3 6 = cancelJob demoStateQ 3 5 ∧
    cancelJob demoStateQ 99 5 = (.err .JOB_NOT_FOUND, demoStateQ) ∧
    cancelJob (initState [some demoDoneRec] 0) 2 9
      = (.ok (serializeJob (toJob (loadOne 0 demoDoneRec))),
         initState [some demoDoneRec] 0) ∧
    (∃ snap, (cancelJob demoStateQ 3 5).1 = .ok snap ∧ snap.status = .canceled ∧
      (cancelJob (cancelJob demoStateQ 3 5).2 3 6).1 = .ok snap) :=
  ⟨(cancelJob_idempotent demoStateQ 3 5 6).1,
   (cancelJob_idempotent demoStateQ 99 5 6).2.1 rfl,
   (cancelJob_idempotent (initState [some demoDoneRec] 0) 2 9 0).2.2.1
     (toJob (loadOne 0 demoDoneRec)) rfl rfl,
   (cancelJob_idempotent demoStateQ 3 5 6).2.2.2 (mkJob 3 1 [] .sync 0) rfl rfl⟩

end Runner
